import Mathlib

/-!
Verification model of the CivilRightsSummarizedAI ingestion pipeline.

This file gives a shallow embedding of the parts of the repository that the
verified properties speak about:

* `src/clearinghouse/ingest/pipeline.py` — the `IngestionPipeline` class
  (`run`, `_ingest_case`, `_update_checkpoint`, `_get_checkpoint_since`,
  `_archive_raw_payload`, `_start_run_record`, `_finish_run_record`),
  together with the helpers `_to_json_safe` and `_normalize_datetime`.
* `src/clearinghouse/clients/http.py` — `normalize_api_token` and the
  construction of `HttpClearinghouseClient`.

Modelling conventions:

* Python `datetime` values are modelled by `DT`: an integer instant plus an
  awareness flag (`tzinfo` present or not).  `replace(tzinfo=utc)` keeps the
  clock fields, so normalization keeps `val` and sets the flag; comparisons
  between two aware datetimes compare instants, i.e. `val`.
* External collaborators that the spec explicitly excludes from the core are
  modelled as function parameters: the SQLAlchemy store is a pure state
  (`DB`) with the scoped-session / commit discipline made explicit, the
  source client is a record of list-valued functions whose `Except.error`
  elements model an exception raised while iterating, the summarizer is a
  pure function, and the stdlib `hashlib.sha256` digest is an abstract
  function `String → String`.
* Python strings are modelled by Lean `String` with explicit ASCII variants
  of `str.strip`, `str.lower`, `str.startswith` and `str.split(None, 1)`.
-/

/-- Model of a Python `datetime` value: `val` is the instant it denotes and
`aware` records whether it carries a `tzinfo`. -/
structure DT where
  val : Int
  aware : Bool
deriving DecidableEq

/-- Model of `_normalize_datetime` (pipeline.py): `None` passes through, a
naive datetime gets `tzinfo=timezone.utc` attached (same clock fields, hence
same `val`), an aware datetime is returned unchanged. -/
def normalize_datetime : Option DT → Option DT
  | Option.none => Option.none
  | Option.some d => if d.aware then Option.some d else Option.some ⟨d.val, true⟩

/-- Characters treated as whitespace by Python `str.strip()` /
`str.split(None)` (ASCII fragment). -/
def pyIsSpace (c : Char) : Bool :=
  c == ' ' || c == '\t' || c == '\n' || c == '\r' || c == '\x0b' || c == '\x0c'

/-- Left strip, on the character list. -/
def pyLStripList (l : List Char) : List Char := l.dropWhile pyIsSpace

/-- Right strip, on the character list. -/
def pyRStripList (l : List Char) : List Char := (l.reverse.dropWhile pyIsSpace).reverse

/-- Model of Python `str.strip()`. -/
def pyStrip (s : String) : String := ⟨pyRStripList (pyLStripList s.toList)⟩

/-- Model of Python `str.lower()` (ASCII fragment, which is all the token
check needs: it compares against the ASCII literal "token "). -/
def pyLowerChar (c : Char) : Char :=
  if 65 ≤ c.toNat ∧ c.toNat ≤ 90 then Char.ofNat (c.toNat + 32) else c

/-- Model of Python `str.lower()` on a whole string. -/
def pyLower (s : String) : String := ⟨s.toList.map pyLowerChar⟩

/-- Model of Python `str.startswith(pat)`. -/
def pyStartsWith (s pat : String) : Bool :=
  s.toList.take pat.toList.length == pat.toList

/-- Model of Python `str.split(None, 1)`: skip leading whitespace, take the
first whitespace-free word, then drop the following whitespace run; returns
the word and the verbatim remainder. -/
def pySplitWsOnce (s : String) : String × String :=
  let l := s.toList.dropWhile pyIsSpace
  (⟨l.takeWhile (fun c => !pyIsSpace c)⟩,
   ⟨(l.dropWhile (fun c => !pyIsSpace c)).dropWhile pyIsSpace⟩)

/-- Model of `normalize_api_token` (http.py): falsy input gives the empty
string; otherwise strip, and if the stripped token starts (case-insensitively)
with the label "token " drop that first word and strip the remainder. -/
def normalize_api_token : Option String → String
  | Option.none => ""
  | Option.some token =>
    if token = "" then ""
    else
      let stripped := pyStrip token
      if stripped = "" then ""
      else if pyStartsWith (pyLower stripped) "token " then
        pyStrip (pySplitWsOnce stripped).2
      else stripped

/-- Model of Python `str.rstrip("/")`, used on the base URL. -/
def pyRStripSlash (s : String) : String :=
  ⟨(s.toList.reverse.dropWhile (fun c => c == '/')).reverse⟩

/-- Observable state of a constructed `HttpClearinghouseClient`: the pieces of
`__init__` that survive construction and matter to callers (the `httpx.Client`
itself is an external collaborator; we keep the headers it is given). -/
structure HttpClientModel where
  base_url : String
  authorization : String
  user_agent : String
deriving DecidableEq

/-- Model of `HttpClearinghouseClient.__init__` (http.py): normalize the
token, raise `ValueError` if the result is empty (before any HTTP client is
created), otherwise build the client with the `Authorization` header
`"Token " + normalized_token`. -/
def HttpClearinghouseClient_init (base_url : String) (token : Option String)
    (user_agent : String := "CivilRightsSummarizedAI/0.1") :
    Except String HttpClientModel :=
  let normalized_token := normalize_api_token token
  if normalized_token = "" then
    Except.error "A Clearinghouse API token is required"
  else
    Except.ok ⟨pyRStripSlash base_url, "Token " ++ normalized_token, user_agent⟩

/-- JSON-safe values, the codomain of `_to_json_safe`: exactly the shapes that
`json.dumps` accepts.  Floats are carried by their decimal rendering (the
string `repr` produces), since IEEE arithmetic is outside the model. -/
inductive JValue where
  | null
  | bool (b : Bool)
  | int (n : Int)
  | flt (r : String)
  | str (s : String)
  | arr (items : List JValue)
  | obj (fields : List (String × JValue))

/-- Python payload values, the domain of `_to_json_safe`: dicts, lists,
tuples, datetimes, strings, numbers, booleans, `None`, and arbitrary other
objects carried by their `str()` rendering.  Dict keys are modelled as
strings (the code applies `str(key)`, the identity on strings). -/
inductive PValue where
  | dict (fields : List (String × PValue))
  | list (items : List PValue)
  | tup (items : List PValue)
  | dt (d : DT)
  | none
  | str (s : String)
  | int (n : Int)
  | flt (r : String)
  | bool (b : Bool)
  | other (s : String)

/-- Model of `datetime.isoformat()` (Python stdlib, external to the repo):
abstracted to an injective rendering of the instant plus the UTC offset
marker for aware values. -/
def DT.isoformat (d : DT) : String :=
  toString d.val ++ (if d.aware then "+00:00" else "")

mutual

/-- Model of `_to_json_safe` (pipeline.py): dicts become string-keyed
objects, lists and tuples become arrays, datetimes become their `isoformat`
string, `None`/str/int/float/bool pass through, anything else is
stringified. -/
def to_json_safe : PValue → JValue
  | PValue.dict fields => JValue.obj (to_json_safe_fields fields)
  | PValue.list items => JValue.arr (to_json_safe_items items)
  | PValue.tup items => JValue.arr (to_json_safe_items items)
  | PValue.dt d => JValue.str d.isoformat
  | PValue.none => JValue.null
  | PValue.str s => JValue.str s
  | PValue.int n => JValue.int n
  | PValue.flt r => JValue.flt r
  | PValue.bool b => JValue.bool b
  | PValue.other s => JValue.str s

/-- Recursion of `_to_json_safe` through list elements. -/
def to_json_safe_items : List PValue → List JValue
  | [] => []
  | x :: xs => to_json_safe x :: to_json_safe_items xs

/-- Recursion of `_to_json_safe` through dict items. -/
def to_json_safe_fields : List (String × PValue) → List (String × JValue)
  | [] => []
  | (k, v) :: xs => (k, to_json_safe v) :: to_json_safe_fields xs

end

/-- Lowercase hexadecimal digit. -/
def hexDigitChar (n : Nat) : Char :=
  if n < 10 then Char.ofNat (48 + n) else Char.ofNat (87 + (n - 10))

/-- Four-digit hexadecimal rendering, as in a JSON `\uXXXX` escape. -/
def hex4 (n : Nat) : List Char :=
  [hexDigitChar (n / 4096 % 16), hexDigitChar (n / 256 % 16),
   hexDigitChar (n / 16 % 16), hexDigitChar (n % 16)]

/-- Escape of one character inside a JSON string literal, following
`json.dumps` with its default `ensure_ascii=True`. -/
def jsonEscapeChar (c : Char) : List Char :=
  if c == '"' then ['\\', '"']
  else if c == '\\' then ['\\', '\\']
  else if c == '\n' then ['\\', 'n']
  else if c == '\t' then ['\\', 't']
  else if c == '\r' then ['\\', 'r']
  else if c == '\x08' then ['\\', 'b']
  else if c == '\x0c' then ['\\', 'f']
  else if c.toNat < 32 then '\\' :: 'u' :: hex4 c.toNat
  else if c.toNat < 128 then [c]
  else if c.toNat < 65536 then '\\' :: 'u' :: hex4 c.toNat
  else
    let n := c.toNat - 65536
    ('\\' :: 'u' :: hex4 (55296 + n / 1024)) ++ ('\\' :: 'u' :: hex4 (56320 + n % 1024))

/-- JSON string literal for `s`. -/
def jsonQuote (s : String) : String := ⟨'"' :: (s.toList.flatMap jsonEscapeChar) ++ ['"']⟩

/-- Code-point lexicographic comparison on character lists; this is Python's
`str` ordering, the order `json.dumps(sort_keys=True)` sorts keys by. -/
def lexLe : List Char → List Char → Bool
  | [], _ => true
  | _ :: _, [] => false
  | a :: as, b :: bs =>
      if a.toNat < b.toNat then true
      else if b.toNat < a.toNat then false
      else lexLe as bs

/-- Python string `<=`. -/
def strLe (a b : String) : Bool := lexLe a.toList b.toList

/-- Key order on object fields: compare the keys. -/
def keyLE (a b : String × JValue) : Prop := strLe a.1 b.1 = true

instance : DecidableRel keyLE := fun a b =>
  inferInstanceAs (Decidable (strLe a.1 b.1 = true))

mutual

/-- Deep key-sorting pass: `json.dumps(..., sort_keys=True)` emits every
object's fields in key order; we model this by sorting first and then
serializing in order. -/
def sortKeysDeep : JValue → JValue
  | JValue.null => JValue.null
  | JValue.bool b => JValue.bool b
  | JValue.int n => JValue.int n
  | JValue.flt r => JValue.flt r
  | JValue.str s => JValue.str s
  | JValue.arr items => JValue.arr (sortKeysDeepItems items)
  | JValue.obj fields => JValue.obj (List.insertionSort keyLE (sortKeysDeepFields fields))

/-- Recursion of the sorting pass through array elements. -/
def sortKeysDeepItems : List JValue → List JValue
  | [] => []
  | x :: xs => sortKeysDeep x :: sortKeysDeepItems xs

/-- Recursion of the sorting pass through object fields. -/
def sortKeysDeepFields : List (String × JValue) → List (String × JValue)
  | [] => []
  | (k, v) :: xs => (k, sortKeysDeep v) :: sortKeysDeepFields xs

end

mutual

/-- Serialization with the separators `(",", ":")`: no extraneous
whitespace. -/
def serializeJ : JValue → String
  | JValue.null => "null"
  | JValue.bool b => if b then "true" else "false"
  | JValue.int n => toString n
  | JValue.flt r => r
  | JValue.str s => jsonQuote s
  | JValue.arr items => "[" ++ serializeItems items ++ "]"
  | JValue.obj fields => "\x7b" ++ serializeFields fields ++ "\x7d"

/-- Comma-joined serialization of array elements. -/
def serializeItems : List JValue → String
  | [] => ""
  | [x] => serializeJ x
  | x :: y :: xs => serializeJ x ++ "," ++ serializeItems (y :: xs)

/-- Comma-joined serialization of object fields, in the order given. -/
def serializeFields : List (String × JValue) → String
  | [] => ""
  | [(k, v)] => jsonQuote k ++ ":" ++ serializeJ v
  | (k, v) :: y :: xs => jsonQuote k ++ ":" ++ serializeJ v ++ "," ++ serializeFields (y :: xs)

end

/-- Model of `json.dumps(value, sort_keys=True, separators=(",", ":"))`
(Python stdlib): deterministic serialization with sorted keys and no
extraneous whitespace. -/
def json_dumps_sorted (v : JValue) : String := serializeJ (sortKeysDeep v)

theorem lexLe_total : ∀ x y : List Char, lexLe x y = true ∨ lexLe y x = true := by
  intro x
  induction x with
  | nil => intro y; left; rfl
  | cons a as ih =>
    intro y
    cases y with
    | nil => right; rfl
    | cons b bs =>
      by_cases hab : a.toNat < b.toNat
      · left; simp [lexLe, hab]
      · by_cases hba : b.toNat < a.toNat
        · right; simp [lexLe, hba]
        · rcases ih bs with h | h
          · left; simp [lexLe, hab, hba, h]
          · right; simp [lexLe, hab, hba, h]

theorem lexLe_trans :
    ∀ x y z : List Char, lexLe x y = true → lexLe y z = true → lexLe x z = true := by
  intro x
  induction x with
  | nil => intro y z _ _; rfl
  | cons a as ih =>
    intro y z hxy hyz
    cases y with
    | nil => simp [lexLe] at hxy
    | cons b bs =>
      cases z with
      | nil => simp [lexLe] at hyz
      | cons c cs =>
        simp only [lexLe] at hxy hyz ⊢
        by_cases hab : a.toNat < b.toNat
        · by_cases hbc : b.toNat < c.toNat
          · rw [if_pos (show a.toNat < c.toNat by omega)]
          · rw [if_neg hbc] at hyz
            by_cases hcb : c.toNat < b.toNat
            · rw [if_pos hcb] at hyz; exact absurd hyz (by decide)
            · rw [if_pos (show a.toNat < c.toNat by omega)]
        · rw [if_neg hab] at hxy
          by_cases hba : b.toNat < a.toNat
          · rw [if_pos hba] at hxy; exact absurd hxy (by decide)
          · rw [if_neg hba] at hxy
            by_cases hbc : b.toNat < c.toNat
            · rw [if_pos (show a.toNat < c.toNat by omega)]
            · rw [if_neg hbc] at hyz
              by_cases hcb : c.toNat < b.toNat
              · rw [if_pos hcb] at hyz; exact absurd hyz (by decide)
              · rw [if_neg hcb] at hyz
                rw [if_neg (show ¬ a.toNat < c.toNat by omega),
                    if_neg (show ¬ c.toNat < a.toNat by omega)]
                exact ih bs cs hxy hyz

theorem lexLe_antisymm :
    ∀ x y : List Char, lexLe x y = true → lexLe y x = true → x = y := by
  intro x
  induction x with
  | nil =>
    intro y _ hyx
    cases y with
    | nil => rfl
    | cons b bs => simp [lexLe] at hyx
  | cons a as ih =>
    intro y hxy hyx
    cases y with
    | nil => simp [lexLe] at hxy
    | cons b bs =>
      simp only [lexLe] at hxy hyx
      by_cases hab : a.toNat < b.toNat
      · rw [if_neg (show ¬ b.toNat < a.toNat by omega), if_pos hab] at hyx
        exact absurd hyx (by decide)
      · rw [if_neg hab] at hxy
        by_cases hba : b.toNat < a.toNat
        · rw [if_pos hba] at hxy; exact absurd hxy (by decide)
        · rw [if_neg hba] at hxy
          rw [if_neg hba, if_neg hab] at hyx
          have hval : a.toNat = b.toNat := by omega
          have hc : a = b := Char.ext (UInt32.ext hval)
          rw [hc, ih bs hxy hyx]

theorem strLe_antisymm (a b : String) (h1 : strLe a b = true) (h2 : strLe b a = true) :
    a = b := by
  cases a with
  | mk la =>
    cases b with
    | mk lb =>
      have : la = lb := lexLe_antisymm la lb h1 h2
      rw [this]

instance : IsTotal (String × JValue) keyLE :=
  ⟨fun a b => lexLe_total a.1.toList b.1.toList⟩

instance : IsTrans (String × JValue) keyLE :=
  ⟨fun a b c h1 h2 => lexLe_trans a.1.toList b.1.toList c.1.toList h1 h2⟩

/-- Strict key order: used only to state uniqueness of the sorted field
list. -/
def keyLT (a b : String × JValue) : Prop := keyLE a b ∧ a.1 ≠ b.1

instance : IsAntisymm (String × JValue) keyLT :=
  ⟨fun _ _ h1 h2 => absurd (strLe_antisymm _ _ h1.1 h2.1) h1.2⟩

/-- Two field lists that are permutations of each other with no duplicate
keys sort to the same list: the emitted key order is unique. -/
theorem insertionSort_key_eq (l1 l2 : List (String × JValue)) (hp : l1.Perm l2)
    (hnd : (l1.map Prod.fst).Nodup) :
    List.insertionSort keyLE l1 = List.insertionSort keyLE l2 := by
  have hs1 : List.Sorted keyLE (List.insertionSort keyLE l1) :=
    List.sorted_insertionSort keyLE l1
  have hs2 : List.Sorted keyLE (List.insertionSort keyLE l2) :=
    List.sorted_insertionSort keyLE l2
  have hperm : (List.insertionSort keyLE l1).Perm (List.insertionSort keyLE l2) :=
    (List.perm_insertionSort keyLE l1).trans
      (hp.trans (List.perm_insertionSort keyLE l2).symm)
  have hnd2 : (l2.map Prod.fst).Nodup := ((hp.map Prod.fst).nodup_iff).mp hnd
  have hstrict : ∀ l : List (String × JValue), (l.map Prod.fst).Nodup →
      List.Sorted keyLE (List.insertionSort keyLE l) →
      List.Sorted keyLT (List.insertionSort keyLE l) := by
    intro l hl hs
    have hndl : ((List.insertionSort keyLE l).map Prod.fst).Nodup := by
      refine (((List.perm_insertionSort keyLE l).map Prod.fst).nodup_iff).mpr hl
    have hpne : (List.insertionSort keyLE l).Pairwise (fun a b => a.1 ≠ b.1) :=
      (List.pairwise_map).mp hndl
    exact (hs.and hpne).imp (fun h => ⟨h.1, h.2⟩)
  exact @List.eq_of_perm_of_sorted _ keyLT _ _ _ hperm
    (hstrict l1 hnd hs1) (hstrict l2 hnd2 hs2)

/-- Case as produced by a source client (`clearinghouse/types.py`). -/
structure CaseT where
  id : String
  name : String
  court : Option String
  state : Option String
  status : Option String
  last_checked : Option DT
  documents_url : Option String
  dockets_url : Option String
  metadata : List (String × PValue)

/-- Docket as produced by a source client (`clearinghouse/types.py`). -/
structure DocketT where
  id : String
  case_id : String
  docket_number : Option String
  court : Option String
  state : Option String
  is_main : Option Bool
  metadata : List (String × PValue)

/-- Document as produced by a source client (`clearinghouse/types.py`). -/
structure DocumentT where
  id : String
  case_id : String
  docket_id : Option String
  title : String
  document_type : Option String
  date : Option DT
  court : Option String
  has_text : Bool
  text_url : Option String
  external_url : Option String
  text : Option String
  metadata : List (String × PValue)

/-- Model of Python `dict.get(key)` on an association list. -/
def pyDictGet (l : List (String × PValue)) (k : String) : Option PValue :=
  match l.find? (fun kv => kv.1 == k) with
  | Option.none => Option.none
  | Option.some kv => Option.some kv.2

/-- Row of the `cases` table, as written by `_upsert_case`. -/
structure CaseRow where
  id : String
  name : String
  court : Option String
  state : Option String
  jurisdiction : Option PValue
  status : Option String
  updated_at_remote : Option DT
  documents_url : Option String
  dockets_url : Option String
  metadata_json : List (String × PValue)

/-- Row of the `dockets` table, as written by `_upsert_docket`. -/
structure DocketRow where
  id : String
  case_id : String
  docket_number : Option String
  court : Option String
  state : Option String
  is_main : Option Bool
  updated_at_remote : Option DT
  metadata_json : List (String × PValue)

/-- Row of the `documents` table, as written by `_upsert_document`. -/
structure DocumentRow where
  id : String
  docket_id : Option String
  case_id : String
  title : String
  document_type : Option String
  filed_date : Option DT
  court : Option String
  external_url : Option String
  text_url : Option String
  has_text : Bool
  text : Option String
  summary : Option String
  metadata_json : List (String × PValue)

/-- Row of the `raw_api_payloads` table (`RawApiPayloadRecord`); the
autoincrement id is the position in the list. -/
structure RawRow where
  ingestion_run_id : Option String
  source : String
  resource_type : String
  resource_id : String
  case_id : Option String
  docket_id : Option String
  payload_sha256 : String
  payload_json : JValue

/-- Row of the `ingestion_checkpoints` table (`IngestionCheckpointRecord`). -/
structure Checkpoint where
  key : String
  source : String
  last_case_id : Option String
  last_case_last_checked : Option DT
  last_run_id : Option String
deriving DecidableEq

/-- Row of the `ingestion_runs` table (`IngestionRunRecord`).  The
`finished_at` wall-clock value is nondeterministic, so the model keeps only
whether it has been set. -/
structure RunRow where
  id : String
  source : String
  status : String
  finished : Bool
  requested_since : Option DT
  effective_since : Option DT
  case_limit : Option Nat
  checkpoint_key : Option String
  resumed_from_checkpoint : Bool
  cases_ingested : Nat
  dockets_ingested : Nat
  documents_ingested : Nat
  errors : Nat
  error_message : Option String
deriving DecidableEq

/-- The relational store: keyed tables are association lists keyed by primary
key, the raw-payload archive is append-only. -/
structure DB where
  cases : List (String × CaseRow)
  dockets : List (String × DocketRow)
  documents : List (String × DocumentRow)
  raw_payloads : List RawRow
  checkpoints : List (String × Checkpoint)
  runs : List (String × RunRow)

/-- Keyed lookup in a table. -/
def lookupA {α : Type} (l : List (String × α)) (k : String) : Option α :=
  match l with
  | [] => Option.none
  | (k1, v) :: rest => if k1 = k then Option.some v else lookupA rest k

/-- Merge-by-primary-key: overwrite the row with key `k` if present, append
it otherwise (`session.merge` semantics). -/
def upsertA {α : Type} (l : List (String × α)) (k : String) (v : α) : List (String × α) :=
  match l with
  | [] => [(k, v)]
  | (k1, v1) :: rest => if k1 = k then (k, v) :: rest else (k1, v1) :: upsertA rest k v

/-- Source client capability (spec §6): list-valued; an `Except.error`
element models an exception raised while iterating the stream at that
point. -/
structure Client where
  list_cases : Option DT → List (Except String CaseT)
  list_dockets : String → List (Except String DocketT)
  list_documents : String → List (Except String DocumentT)

/-- Pipeline construction parameters, plus the two pure external
collaborators: the stdlib SHA-256 digest and the summarizer (spec §1 treats
both as capabilities outside the core). -/
structure Config where
  source : String
  checkpoint_key : Option String
  archive_raw_payloads : Bool
  continue_on_error : Bool
  sha256 : String → String
  summarize : DocumentT → String

/-- Python truthiness of an optional string (`if self.checkpoint_key:`). -/
def truthy_str : Option String → Bool
  | Option.none => false
  | Option.some s => s ≠ ""

/-- Model of `str(x) if x else None` applied to an optional id. -/
def strOrNone : Option String → Option String
  | Option.none => Option.none
  | Option.some s => if s = "" then Option.none else Option.some s

/-- Model of `IngestionPipeline._archive_raw_payload`: canonicalize,
serialize deterministically, hash; skip the insert when a row with the same
`(resource_type, resource_id, payload_sha256)` already exists. -/
def rawMatches (rt rid sha : String) (r : RawRow) : Bool :=
  r.resource_type == rt && r.resource_id == rid && r.payload_sha256 == sha

def archive_raw_payload (cfg : Config) (s : DB) (run_id rt rid : String)
    (payload : List (String × PValue)) (case_id docket_id : Option String) : DB :=
  let safe_payload := to_json_safe (PValue.dict payload)
  let serialized := json_dumps_sorted safe_payload
  let payload_sha := cfg.sha256 serialized
  if s.raw_payloads.any (rawMatches rt rid payload_sha)
  then s
  else
    { s with raw_payloads := (s.raw_payloads ++
        [⟨Option.some run_id, cfg.source, rt, rid, strOrNone case_id, strOrNone docket_id,
          payload_sha, safe_payload⟩]) }

/-- Model of `IngestionPipeline._upsert_case` (merge-by-primary-key). -/
def upsert_case (s : DB) (c : CaseT) : DB :=
  { s with cases := (upsertA s.cases c.id
      ⟨c.id, c.name, c.court, c.state,
       (if c.metadata.isEmpty then Option.none else pyDictGet c.metadata "jurisdiction"),
       c.status, c.last_checked, c.documents_url, c.dockets_url, c.metadata⟩) }

/-- Model of `IngestionPipeline._upsert_docket`. -/
def upsert_docket (s : DB) (d : DocketT) : DB :=
  { s with dockets := (upsertA s.dockets d.id
      ⟨d.id, d.case_id, d.docket_number, d.court, d.state, d.is_main, Option.none,
       d.metadata⟩) }

/-- Model of `IngestionPipeline._upsert_document`. -/
def upsert_document (s : DB) (d : DocumentT) (summary : Option String) : DB :=
  { s with documents := (upsertA s.documents d.id
      ⟨d.id, d.docket_id, d.case_id, d.title, d.document_type, d.date, d.court,
       d.external_url, d.text_url, d.has_text, d.text, summary, d.metadata⟩) }

/-- Docket loop of `_ingest_case`: upsert and optionally archive each docket
yielded by the client; an `Except.error` element is an exception escaping the
loop. -/
def ingest_dockets (cfg : Config) (run_id : String) :
    List (Except String DocketT) → DB → Nat → Except String (DB × Nat)
  | [], s, n => Except.ok (s, n)
  | Except.error e :: _, _, _ => Except.error e
  | Except.ok d :: rest, s, n =>
      let s1 := upsert_docket s d
      let s2 := if cfg.archive_raw_payloads then
          archive_raw_payload cfg s1 run_id "docket" d.id d.metadata
            (Option.some d.case_id) (Option.some d.id)
        else s1
      ingest_dockets cfg run_id rest s2 (n + 1)

/-- Document loop of `_ingest_case`: summarize, upsert and optionally archive
each document yielded by the client. -/
def ingest_documents (cfg : Config) (run_id : String) :
    List (Except String DocumentT) → DB → Nat → Except String (DB × Nat)
  | [], s, n => Except.ok (s, n)
  | Except.error e :: _, _, _ => Except.error e
  | Except.ok d :: rest, s, n =>
      let summary := cfg.summarize d
      let s1 := upsert_document s d (Option.some summary)
      let s2 := if cfg.archive_raw_payloads then
          archive_raw_payload cfg s1 run_id "document" d.id d.metadata
            (Option.some d.case_id) d.docket_id
        else s1
      ingest_documents cfg run_id rest s2 (n + 1)

/-- Model of `IngestionPipeline._ingest_case`: one scoped session per case;
all writes happen on a working copy of the store and become visible only
through the single `commit()` at the end (returning the new store).  An error
anywhere before the commit leaves the caller with the old store. -/
def ingest_case (cfg : Config) (client : Client) (db : DB) (run_id : String) (c : CaseT) :
    Except String (DB × Nat × Nat) :=
  let s0 := upsert_case db c
  let s1 := if cfg.archive_raw_payloads then
      archive_raw_payload cfg s0 run_id "case" c.id c.metadata (Option.some c.id) Option.none
    else s0
  match ingest_dockets cfg run_id (client.list_dockets c.id) s1 0 with
  | Except.error e => Except.error e
  | Except.ok (s2, dockets_count) =>
    match ingest_documents cfg run_id (client.list_documents c.id) s2 0 with
    | Except.error e => Except.error e
    | Except.ok (s3, documents_count) => Except.ok (s3, dockets_count, documents_count)

/-- Model of `IngestionPipeline._get_checkpoint_since`. -/
def get_checkpoint_since (db : DB) (checkpoint_key : String) : Option DT :=
  match lookupA db.checkpoints checkpoint_key with
  | Option.none => Option.none
  | Option.some cp => normalize_datetime cp.last_case_last_checked

/-- Model of `IngestionPipeline._update_checkpoint`: load or create the row,
advance cursor and `last_case_id` when the case's normalized cursor exists
and is `>=` the stored one (or none is stored), update `last_case_id` alone
when both cursors are absent, always stamp `last_run_id`. -/
def update_checkpoint (cfg : Config) (db : DB) (checkpoint_key : String) (c : CaseT)
    (run_id : String) : DB :=
  let cp0 := (lookupA db.checkpoints checkpoint_key).getD
    ⟨checkpoint_key, cfg.source, Option.none, Option.none, Option.none⟩
  let case_ts := normalize_datetime c.last_checked
  let cp1 :=
    match case_ts with
    | Option.some t =>
      match cp0.last_case_last_checked with
      | Option.none =>
        { cp0 with last_case_last_checked := Option.some t, last_case_id := Option.some c.id }
      | Option.some stored =>
        match normalize_datetime (Option.some stored) with
        | Option.some storedn =>
          if storedn.val ≤ t.val then
            { cp0 with last_case_last_checked := Option.some t, last_case_id := Option.some c.id }
          else cp0
        | Option.none => cp0
    | Option.none =>
      match cp0.last_case_last_checked with
      | Option.none => { cp0 with last_case_id := Option.some c.id }
      | Option.some _ => cp0
  let cp2 := { cp1 with last_run_id := Option.some run_id }
  { db with checkpoints := upsertA db.checkpoints checkpoint_key cp2 }

/-- High-level counters returned to the CLI and tests (`IngestionStats`). -/
structure IngestionStats where
  run_id : Option String := Option.none
  effective_since : Option DT := Option.none
  resumed_from_checkpoint : Bool := false
  cases : Nat := 0
  dockets : Nat := 0
  documents : Nat := 0
  errors : Nat := 0
deriving DecidableEq

/-- Model of `IngestionPipeline._start_run_record`: insert the Run row in
`running` status before any case is fetched. -/
def start_run_record (cfg : Config) (db : DB) (run_id : String)
    (requested_since effective_since : Option DT) (case_limit : Option Nat)
    (resumed_from_checkpoint : Bool) : DB :=
  { db with runs := (upsertA db.runs run_id
      ⟨run_id, cfg.source, "running", false, requested_since, effective_since, case_limit,
       cfg.checkpoint_key, resumed_from_checkpoint, 0, 0, 0, 0, Option.none⟩) }

/-- Model of `IngestionPipeline._finish_run_record`: write final status,
finish timestamp and counters to the Run row (no-op if the row vanished). -/
def finish_run_record (db : DB) (run_id status : String) (stats : IngestionStats)
    (error_message : Option String) : DB :=
  match lookupA db.runs run_id with
  | Option.none => db
  | Option.some run =>
    { db with runs := (upsertA db.runs run_id
        { run with status := status, finished := true, cases_ingested := stats.cases,
                   dockets_ingested := stats.dockets, documents_ingested := stats.documents,
                   errors := stats.errors, error_message := error_message }) }

/-- Effective cursor resolution, transcribed from `IngestionPipeline.run`
(lines 88–97): resume from the checkpoint cursor only when requested, a
checkpoint key is configured, the stored cursor exists, and it is strictly
later than the (normalized) requested lower bound. -/
def resolveEffectiveSince (cfg : Config) (db : DB) (since : Option DT) (resume : Bool) :
    Option DT × Bool :=
  let requested := normalize_datetime since
  if resume && truthy_str cfg.checkpoint_key then
    match get_checkpoint_since db (cfg.checkpoint_key.getD "") with
    | Option.some cps =>
      match requested with
      | Option.none => (Option.some cps, true)
      | Option.some r =>
        if r.val < cps.val then (Option.some cps, true) else (requested, false)
    | Option.none => (requested, false)
  else (requested, false)

/-- Mutable state of the case loop in `IngestionPipeline.run`. -/
structure LoopState where
  db : DB
  stats : IngestionStats
  final_status : String
  fatal_error : Option String
  fatal_error_message : Option String

/-- Body of the per-case `try` in `IngestionPipeline.run`: on success bump
counters and advance the checkpoint; on failure bump the error counter and
either record a partial status and keep going (`continue_on_error`) or turn
into the run-level failure.  The boolean says whether the loop goes on. -/
def runStep (cfg : Config) (client : Client) (run_id : String) (st : LoopState) (c : CaseT) :
    LoopState × Bool :=
  match ingest_case cfg client st.db run_id c with
  | Except.ok (db1, dockets_count, documents_count) =>
    let stats1 := { st.stats with
      cases := st.stats.cases + 1,
      dockets := st.stats.dockets + dockets_count,
      documents := st.stats.documents + documents_count }
    let db2 := if truthy_str cfg.checkpoint_key then
        update_checkpoint cfg db1 (cfg.checkpoint_key.getD "") c run_id
      else db1
    ({ st with db := db2, stats := stats1 }, true)
  | Except.error e =>
    let stats1 := { st.stats with errors := st.stats.errors + 1 }
    if cfg.continue_on_error then
      let fs := if st.final_status = "success" then "partial" else st.final_status
      ({ st with
          stats := stats1
          final_status := fs
          fatal_error_message := Option.some e }, true)
    else
      ({ st with
          stats := stats1
          final_status := "failed"
          fatal_error := Option.some e
          fatal_error_message := Option.some e }, false)

/-- Test `case_limit is not None and idx >= case_limit`. -/
def limitReached : Option Nat → Nat → Bool
  | Option.none, _ => false
  | Option.some l, idx => l ≤ idx

/-- Case loop of `IngestionPipeline.run`: pull the next element (a raised
exception there becomes the run-level failure), stop at the case limit,
otherwise run the per-case body. -/
def runLoop (cfg : Config) (client : Client) (run_id : String) (case_limit : Option Nat) :
    List (Except String CaseT) → Nat → LoopState → LoopState
  | [], _, st => st
  | Except.error e :: _, _, st =>
    { st with final_status := "failed", fatal_error := Option.some e,
              fatal_error_message := Option.some e }
  | Except.ok c :: rest, idx, st =>
    if limitReached case_limit idx then st
    else
      match runStep cfg client run_id st c with
      | (st1, true) => runLoop cfg client run_id case_limit rest (idx + 1) st1
      | (st1, false) => st1

/-- Model of `IngestionPipeline.run`: resolve the effective cursor, insert
the Run row, iterate the cases, and — on every exit path — finalize the Run
row before returning the stats or re-raising the fatal error. -/
def runPipeline (cfg : Config) (client : Client) (db0 : DB) (run_id : String)
    (since : Option DT) (case_limit : Option Nat) (resume_from_checkpoint : Bool) :
    DB × Except String IngestionStats :=
  let requested := normalize_datetime since
  let res := resolveEffectiveSince cfg db0 since resume_from_checkpoint
  let stats0 : IngestionStats :=
    { run_id := Option.some run_id, effective_since := res.1, resumed_from_checkpoint := res.2 }
  let db1 := start_run_record cfg db0 run_id requested res.1 case_limit res.2
  let stF := runLoop cfg client run_id case_limit (client.list_cases res.1) 0
    ⟨db1, stats0, "success", Option.none, Option.none⟩
  let db2 := finish_run_record stF.db run_id stF.final_status stF.stats stF.fatal_error_message
  match stF.fatal_error with
  | Option.some e => (db2, Except.error e)
  | Option.none => (db2, Except.ok stF.stats)

theorem lookupA_upsertA_self {α : Type} (l : List (String × α)) (k : String) (v : α) :
    lookupA (upsertA l k v) k = Option.some v := by
  induction l with
  | nil => simp [upsertA, lookupA]
  | cons hd tl ih =>
    obtain ⟨k1, v1⟩ := hd
    by_cases hk : k1 = k
    · simp [upsertA, lookupA, hk]
    · simp [upsertA, lookupA, hk, ih]

/-- The condition under which `_update_checkpoint` rewrites the cursor and
`last_case_id` (the code's `>=` comparison, after normalization). -/
def cursorAdvances (stored case_ts : Option DT) : Bool :=
  match stored with
  | Option.none => true
  | Option.some s =>
    match case_ts with
    | Option.none => false
    | Option.some t => decide (s.val ≤ t.val)

-- concrete fixtures shared by several witnesses and counterexamples
def cfg0 : Config :=
  ⟨"mock", Option.some "k", true, true, fun s => s, fun _ => "summary"⟩

def dbEmpty : DB := ⟨[], [], [], [], [], []⟩

def cpA : Checkpoint := ⟨"k", "mock", Option.some "A", Option.some ⟨5, true⟩, Option.none⟩

def dbC1 : DB := ⟨[], [], [], [], [("k", cpA)], []⟩

def caseB : CaseT :=
  ⟨"B", "Case B", Option.none, Option.none, Option.none, Option.some ⟨5, true⟩,
   Option.none, Option.none, []⟩

/-- Full characterization of `_update_checkpoint` on the stored row (helper
shared by the claim theorems below). -/
theorem update_checkpoint_lookup (cfg : Config) (db : DB) (key : String) (c : CaseT)
    (run_id : String) :
    lookupA (update_checkpoint cfg db key c run_id).checkpoints key =
      Option.some
        { (lookupA db.checkpoints key).getD
            ⟨key, cfg.source, Option.none, Option.none, Option.none⟩ with
          last_case_last_checked :=
            (if cursorAdvances ((lookupA db.checkpoints key).getD
                ⟨key, cfg.source, Option.none, Option.none, Option.none⟩).last_case_last_checked
                (normalize_datetime c.last_checked)
             then normalize_datetime c.last_checked
             else ((lookupA db.checkpoints key).getD
                ⟨key, cfg.source, Option.none, Option.none, Option.none⟩).last_case_last_checked)
          last_case_id :=
            (if cursorAdvances ((lookupA db.checkpoints key).getD
                ⟨key, cfg.source, Option.none, Option.none, Option.none⟩).last_case_last_checked
                (normalize_datetime c.last_checked)
             then Option.some c.id
             else ((lookupA db.checkpoints key).getD
                ⟨key, cfg.source, Option.none, Option.none, Option.none⟩).last_case_id)
          last_run_id := Option.some run_id } := by
  unfold update_checkpoint
  rw [lookupA_upsertA_self]
  cases hts : normalize_datetime c.last_checked with
  | none =>
    cases hst : ((lookupA db.checkpoints key).getD
        ⟨key, cfg.source, Option.none, Option.none, Option.none⟩).last_case_last_checked with
    | none => simp [hts, hst, cursorAdvances]
    | some stored => simp [hts, hst, cursorAdvances]
  | some t =>
    cases hst : ((lookupA db.checkpoints key).getD
        ⟨key, cfg.source, Option.none, Option.none, Option.none⟩).last_case_last_checked with
    | none => simp [hts, hst, cursorAdvances]
    | some stored =>
      obtain ⟨sv, saw⟩ := stored
      cases saw with
      | true =>
        by_cases hle : sv ≤ t.val
        · simp [hts, hst, cursorAdvances, normalize_datetime, hle]
        · simp [hts, hst, cursorAdvances, normalize_datetime, hle]
      | false =>
        by_cases hle : sv ≤ t.val
        · simp [hts, hst, cursorAdvances, normalize_datetime, hle]
        · simp [hts, hst, cursorAdvances, normalize_datetime, hle]

/-- C1 counterexample: the stored cursor exists and equals the case's
normalized cursor — so the case's cursor is not strictly newer and the claim
asserts no update — yet `_update_checkpoint` (which compares with `>=`)
rewrites `last_case_id` from "A" to "B". -/
theorem update_checkpoint_equal_cursor_updates :
    (lookupA dbC1.checkpoints "k").map Checkpoint.last_case_last_checked =
      Option.some (Option.some ⟨5, true⟩)
    ∧ normalize_datetime caseB.last_checked = Option.some ⟨5, true⟩
    ∧ (lookupA dbC1.checkpoints "k").map Checkpoint.last_case_id =
        Option.some (Option.some "A")
    ∧ (lookupA (update_checkpoint cfg0 dbC1 "k" caseB "r1").checkpoints "k").map
        Checkpoint.last_case_id = Option.some (Option.some "B") := by
  refine ⟨rfl, rfl, rfl, rfl⟩

/-- C9: a successfully ingested case whose cursor is `None` leaves the stored
cursor untouched (never cleared), updates `last_case_id` only when no cursor
was stored, and still stamps `last_run_id`. -/
theorem update_checkpoint_none_cursor (cfg : Config) (db : DB) (key : String) (c : CaseT)
    (run_id : String) (h : c.last_checked = Option.none) :
    lookupA (update_checkpoint cfg db key c run_id).checkpoints key =
      Option.some
        { (lookupA db.checkpoints key).getD
            ⟨key, cfg.source, Option.none, Option.none, Option.none⟩ with
          last_case_id :=
            (if ((lookupA db.checkpoints key).getD
                ⟨key, cfg.source, Option.none, Option.none, Option.none⟩).last_case_last_checked
                = Option.none
             then Option.some c.id
             else ((lookupA db.checkpoints key).getD
                ⟨key, cfg.source, Option.none, Option.none, Option.none⟩).last_case_id)
          last_run_id := Option.some run_id } := by
  unfold update_checkpoint
  rw [lookupA_upsertA_self]
  cases hst : ((lookupA db.checkpoints key).getD
      ⟨key, cfg.source, Option.none, Option.none, Option.none⟩).last_case_last_checked with
  | none => simp [h, normalize_datetime, hst]
  | some stored => simp [h, normalize_datetime, hst]

def caseNone : CaseT :=
  ⟨"N", "Case N", Option.none, Option.none, Option.none, Option.none,
   Option.none, Option.none, []⟩

/-- C9 witness: with a stored cursor present and a case cursor of `None`, the
row keeps its cursor and `last_case_id` and only `last_run_id` changes. -/
theorem update_checkpoint_none_cursor_witness :
    lookupA (update_checkpoint cfg0 dbC1 "k" caseNone "r9").checkpoints "k" =
      Option.some ⟨"k", "mock", Option.some "A", Option.some ⟨5, true⟩, Option.some "r9"⟩ :=
  update_checkpoint_none_cursor cfg0 dbC1 "k" caseNone "r9" rfl

/-- Stored-cursor order used to state checkpoint monotonicity: absent may
grow into anything, a present cursor may only be replaced by a present,
not-earlier cursor (in particular it is never cleared). -/
def cursorLE : Option DT → Option DT → Prop
  | Option.none, _ => True
  | Option.some _, Option.none => False
  | Option.some a, Option.some b => a.val ≤ b.val

theorem cursorLE_trans {a b c : Option DT} (h1 : cursorLE a b) (h2 : cursorLE b c) :
    cursorLE a c := by
  cases a with
  | none => trivial
  | some x =>
    cases b with
    | none => exact absurd h1 (by simp [cursorLE])
    | some y =>
      cases c with
      | none => exact absurd h2 (by simp [cursorLE])
      | some z =>
        simp only [cursorLE] at h1 h2 ⊢
        omega

/-- The cursor stored under `key`, if any. -/
def cursorOf (db : DB) (key : String) : Option DT :=
  match lookupA db.checkpoints key with
  | Option.none => Option.none
  | Option.some cp => cp.last_case_last_checked

theorem update_checkpoint_mono (cfg : Config) (db : DB) (key : String) (c : CaseT)
    (run_id : String) :
    cursorLE (cursorOf db key) (cursorOf (update_checkpoint cfg db key c run_id) key) := by
  unfold cursorOf
  rw [update_checkpoint_lookup]
  cases hlk : lookupA db.checkpoints key with
  | none => simp [hlk, cursorLE]
  | some cp =>
    cases hst : cp.last_case_last_checked with
    | none => simp [hlk, hst, cursorLE]
    | some stored =>
      cases hts : normalize_datetime c.last_checked with
      | none => simp [hlk, hst, hts, cursorAdvances, cursorLE]
      | some t =>
        by_cases hle : stored.val ≤ t.val
        · simp [hlk, hst, hts, cursorAdvances, cursorLE, hle]
        · simp [hlk, hst, hts, cursorAdvances, cursorLE, hle]

/-- A sequence of per-case checkpoint advances for a fixed key. -/
def advanceAll (cfg : Config) (key : String) : DB → List (CaseT × String) → DB
  | db, [] => db
  | db, (c, r) :: rest => advanceAll cfg key (update_checkpoint cfg db key c r) rest

/-- C2: across any sequence of successful per-case checkpoint advances the
stored cursor is monotonically non-decreasing and never cleared. -/
theorem checkpoint_cursor_monotone (cfg : Config) (key : String) (db : DB)
    (seq : List (CaseT × String)) :
    cursorLE (cursorOf db key) (cursorOf (advanceAll cfg key db seq) key) := by
  induction seq generalizing db with
  | nil =>
    cases h : cursorOf db key with
    | none => simp [advanceAll, h, cursorLE]
    | some a => simp [advanceAll, h, cursorLE]
  | cons p rest ih =>
    obtain ⟨c, r⟩ := p
    exact cursorLE_trans (update_checkpoint_mono cfg db key c r)
      (ih (update_checkpoint cfg db key c r))

/-- C4 counterexample: with resume not requested, a naive (timezone-unaware)
requested `since` is not used verbatim — the effective cursor is its
normalized, timezone-aware copy, a different datetime value (in Python,
`datetime(..., tzinfo=None) == datetime(..., tzinfo=utc)` is `False`). -/
theorem effective_since_not_verbatim :
    resolveEffectiveSince cfg0 dbEmpty (Option.some ⟨5, false⟩) false =
      (Option.some ⟨5, true⟩, false)
    ∧ (Option.some (⟨5, true⟩ : DT) ≠ Option.some (⟨5, false⟩ : DT)) := by
  exact ⟨rfl, by decide⟩

/-- C4 (amended): the effective cursor is the checkpoint cursor (and the run
is marked resumed) exactly when resume is requested, a checkpoint key is
configured, the stored cursor exists and is strictly later than the
normalized requested `since` (a missing `since` counting as earliest); in
every other situation it is the requested `since` normalized to its
timezone-aware form, not marked resumed. -/
theorem effective_since_resolution (cfg : Config) (db : DB) (since : Option DT)
    (resume : Bool) :
    (∀ cps : DT, resume = true → truthy_str cfg.checkpoint_key = true →
      get_checkpoint_since db (cfg.checkpoint_key.getD "") = Option.some cps →
      (normalize_datetime since = Option.none ∨
        (∃ r : DT, normalize_datetime since = Option.some r ∧ r.val < cps.val)) →
      resolveEffectiveSince cfg db since resume = (Option.some cps, true))
    ∧
    ((resume = false ∨ truthy_str cfg.checkpoint_key = false ∨
      get_checkpoint_since db (cfg.checkpoint_key.getD "") = Option.none ∨
      (∃ cps r : DT, get_checkpoint_since db (cfg.checkpoint_key.getD "") = Option.some cps ∧
        normalize_datetime since = Option.some r ∧ ¬ r.val < cps.val)) →
      resolveEffectiveSince cfg db since resume = (normalize_datetime since, false)) := by
  constructor
  · intro cps hres hkey hcp hlt
    unfold resolveEffectiveSince
    rw [hres, hkey, hcp]
    rcases hlt with hn | ⟨r, hr, hlt⟩
    · simp [hn]
    · simp [hr, hlt]
  · intro hother
    unfold resolveEffectiveSince
    rcases hother with hres | hkey | hcp | ⟨cps, r, hcp, hr, hnlt⟩
    · simp [hres]
    · simp [hkey]
    · cases hres : resume with
      | false => simp
      | true => simp [hcp]
    · cases hres : resume with
      | false => simp
      | true =>
        cases hkey : truthy_str cfg.checkpoint_key with
        | false => simp
        | true => simp [hcp, hr, hnlt]

def dbC4 : DB := ⟨[], [], [], [], [("k", ⟨"k", "mock", Option.none, Option.some ⟨9, true⟩,
  Option.none⟩)], []⟩

/-- C4 witness: both branches of the resolution at concrete inputs — a
checkpoint cursor later than the request is used and marks the run resumed;
without resume the normalized request is used. -/
theorem effective_since_resolution_witness :
    resolveEffectiveSince cfg0 dbC4 (Option.some ⟨5, true⟩) true =
      (Option.some ⟨9, true⟩, true)
    ∧ resolveEffectiveSince cfg0 dbC4 (Option.some ⟨5, true⟩) false =
      (Option.some ⟨5, true⟩, false) :=
  ⟨(effective_since_resolution cfg0 dbC4 (Option.some ⟨5, true⟩) true).1 ⟨9, true⟩ rfl rfl rfl
      (Or.inr ⟨⟨5, true⟩, rfl, by decide⟩),
   (effective_since_resolution cfg0 dbC4 (Option.some ⟨5, true⟩) false).2 (Or.inl rfl)⟩

/-- C10 counterexample: the token `"Token "` — the bare label followed by
whitespace only — is claimed to normalize to empty and so raise `ValueError`;
the code instead normalizes it to `"Token"` and constructs a client whose
`Authorization` header is `"Token Token"`. -/
theorem http_client_init_label_only_token_succeeds :
    HttpClearinghouseClient_init "https://api.example.org" (Option.some "Token ") =
      Except.ok ⟨"https://api.example.org", "Token Token", "CivilRightsSummarizedAI/0.1"⟩ := by
  rfl

/-- C10 (amended): construction fails with `ValueError` exactly when the
token normalizes to the empty string — which happens for `None`, empty and
whitespace-only inputs, but not for a bare label with nothing after it — and
otherwise succeeds with the `Authorization` header `"Token "` followed by the
normalized token, built before any HTTP client exists on the failure path. -/
theorem http_client_init_spec (base_url : String) (token : Option String)
    (user_agent : String) :
    (normalize_api_token token = "" →
      HttpClearinghouseClient_init base_url token user_agent =
        Except.error "A Clearinghouse API token is required")
    ∧ (normalize_api_token token ≠ "" →
      HttpClearinghouseClient_init base_url token user_agent =
        Except.ok ⟨pyRStripSlash base_url, "Token " ++ normalize_api_token token, user_agent⟩)
    ∧ normalize_api_token Option.none = ""
    ∧ normalize_api_token (Option.some "") = ""
    ∧ (∀ w : String, w.toList.all pyIsSpace = true →
        normalize_api_token (Option.some w) = "") := by
  refine ⟨?_, ?_, rfl, rfl, ?_⟩
  · intro h
    unfold HttpClearinghouseClient_init
    rw [h]
    rfl
  · intro h
    unfold HttpClearinghouseClient_init
    simp [h]
  · intro w hw
    have hstrip : pyStrip w = "" := by
      have h1 : pyLStripList w.toList = [] :=
        List.dropWhile_eq_nil_iff.mpr (fun x hx => (List.all_eq_true.mp hw) x hx)
      unfold pyStrip
      rw [h1]
      rfl
    by_cases hwe : w = ""
    · simp [normalize_api_token, hwe]
    · simp [normalize_api_token, hwe, hstrip]

/-- C10 witness: a padded bare token constructs a client with the normalized
header, and a whitespace-only token is rejected. -/
theorem http_client_init_spec_witness :
    HttpClearinghouseClient_init "https://api.example.org" (Option.some " tok ") "ua" =
      Except.ok ⟨"https://api.example.org", "Token tok", "ua"⟩
    ∧ HttpClearinghouseClient_init "https://api.example.org" (Option.some "   ") "ua" =
      Except.error "A Clearinghouse API token is required" :=
  ⟨(http_client_init_spec "https://api.example.org" (Option.some " tok ") "ua").2.1
     (by decide),
   (http_client_init_spec "https://api.example.org" (Option.some "   ") "ua").1 (by decide)⟩

/-- C3: if a case's ingestion raises mid-transaction, the per-case loop body
leaves the store exactly as it was — no case, docket, document or raw-payload
row becomes visible and the checkpoint is untouched; and on success the
checkpoint advance is applied to (and only to) the state the case's
transaction committed. -/
theorem ingest_failure_atomicity (cfg : Config) (client : Client) (run_id : String)
    (st : LoopState) (c : CaseT) :
    (∀ e, ingest_case cfg client st.db run_id c = Except.error e →
      (runStep cfg client run_id st c).1.db = st.db)
    ∧
    (∀ db1 dk dc, ingest_case cfg client st.db run_id c = Except.ok (db1, dk, dc) →
      (runStep cfg client run_id st c).1.db =
        (if truthy_str cfg.checkpoint_key then
          update_checkpoint cfg db1 (cfg.checkpoint_key.getD "") c run_id
         else db1)) := by
  constructor
  · intro e he
    unfold runStep
    rw [he]
    by_cases hc : cfg.continue_on_error
    · simp [hc]
    · simp [hc]
  · intro db1 dk dc hok
    unfold runStep
    rw [hok]

/-- Failing fixture: the client raises while listing the documents of case
"bad" (after a docket was already written inside the transaction). -/
def clientBad : Client :=
  ⟨fun _ => [Except.ok caseB],
   fun _ => [Except.ok ⟨"d1", "B", Option.none, Option.none, Option.none, Option.none, []⟩],
   fun _ => [Except.error "boom"]⟩

def stB : LoopState :=
  ⟨dbC1, ⟨Option.some "r1", Option.none, false, 0, 0, 0, 0⟩, "success", Option.none,
   Option.none⟩

/-- C3 witness: with a concrete client whose document listing raises, the
loop body returns the store unchanged. -/
theorem ingest_failure_atomicity_witness :
    ingest_case cfg0 clientBad stB.db "r1" caseB = Except.error "boom"
    ∧ (runStep cfg0 clientBad "r1" stB caseB).1.db = stB.db :=
  ⟨rfl, (ingest_failure_atomicity cfg0 clientBad "r1" stB caseB).1 "boom" rfl⟩

theorem to_json_safe_fields_eq_map (l : List (String × PValue)) :
    to_json_safe_fields l = l.map (fun kv => (kv.1, to_json_safe kv.2)) := by
  induction l with
  | nil => rfl
  | cons hd tl ih =>
    obtain ⟨k, v⟩ := hd
    simp [to_json_safe_fields, ih]

theorem sortKeysDeepFields_eq_map (l : List (String × JValue)) :
    sortKeysDeepFields l = l.map (fun kv => (kv.1, sortKeysDeep kv.2)) := by
  induction l with
  | nil => rfl
  | cons hd tl ih =>
    obtain ⟨k, v⟩ := hd
    simp [sortKeysDeepFields, ih]

/-- Determinism of the canonical serialization under key insertion order:
two dicts with the same keys and values, with no duplicate keys, serialize
to the same string whatever order their items were inserted in. -/
theorem json_dumps_dict_perm (p1 p2 : List (String × PValue)) (hp : p1.Perm p2)
    (hnd : (p1.map Prod.fst).Nodup) :
    json_dumps_sorted (to_json_safe (PValue.dict p1)) =
      json_dumps_sorted (to_json_safe (PValue.dict p2)) := by
  unfold json_dumps_sorted
  have hmap : ∀ p : List (String × PValue),
      sortKeysDeepFields (to_json_safe_fields p) =
        p.map (fun kv => (kv.1, sortKeysDeep (to_json_safe kv.2))) := by
    intro p
    rw [to_json_safe_fields_eq_map, sortKeysDeepFields_eq_map, List.map_map]
    rfl
  have hobj : ∀ p : List (String × PValue),
      sortKeysDeep (to_json_safe (PValue.dict p)) =
        JValue.obj (List.insertionSort keyLE
          (p.map (fun kv => (kv.1, sortKeysDeep (to_json_safe kv.2))))) := by
    intro p
    simp [to_json_safe, sortKeysDeep, hmap]
  rw [hobj, hobj]
  have hperm : (p1.map (fun kv => (kv.1, sortKeysDeep (to_json_safe kv.2)))).Perm
      (p2.map (fun kv => (kv.1, sortKeysDeep (to_json_safe kv.2)))) := hp.map _
  have hkeys : ((p1.map (fun kv => (kv.1, sortKeysDeep (to_json_safe kv.2)))).map
      Prod.fst).Nodup := by
    rw [List.map_map]
    exact hnd
  rw [insertionSort_key_eq _ _ hperm hkeys]

/-- Number of archive rows for a `(resource_type, resource_id, sha)` triple. -/
def rawCount (db : DB) (rt rid sha : String) : Nat :=
  (db.raw_payloads.filter (rawMatches rt rid sha)).length

theorem any_eq_false_of_filter_len_zero {α : Type} (l : List α) (p : α → Bool)
    (h : (l.filter p).length = 0) : l.any p = false := by
  rw [List.length_eq_zero] at h
  cases hany : l.any p with
  | false => rfl
  | true =>
    obtain ⟨x, hx, hpx⟩ := List.any_eq_true.mp hany
    have hmem : x ∈ l.filter p := List.mem_filter.mpr ⟨hx, hpx⟩
    rw [h] at hmem
    simp at hmem

theorem any_eq_true_of_filter_len_pos {α : Type} (l : List α) (p : α → Bool)
    (h : (l.filter p).length ≠ 0) : l.any p = true := by
  cases hf : l.filter p with
  | nil => rw [hf] at h; simp at h
  | cons x xs =>
    have hmem : x ∈ l.filter p := by rw [hf]; exact List.mem_cons_self x xs
    have hx := List.mem_filter.mp hmem
    exact List.any_eq_true.mpr ⟨x, hx.1, hx.2⟩

theorem archive_raw_payload_skip (cfg : Config) (s : DB) (r rt rid : String)
    (p : List (String × PValue)) (cid did : Option String)
    (h : s.raw_payloads.any (rawMatches rt rid
      (cfg.sha256 (json_dumps_sorted (to_json_safe (PValue.dict p))))) = true) :
    archive_raw_payload cfg s r rt rid p cid did = s := by
  simp only [archive_raw_payload]
  rw [h]
  rfl

theorem archive_raw_payload_add (cfg : Config) (s : DB) (r rt rid : String)
    (p : List (String × PValue)) (cid did : Option String)
    (h : s.raw_payloads.any (rawMatches rt rid
      (cfg.sha256 (json_dumps_sorted (to_json_safe (PValue.dict p))))) = false) :
    archive_raw_payload cfg s r rt rid p cid did =
      { s with raw_payloads := (s.raw_payloads ++
          [⟨Option.some r, cfg.source, rt, rid, strOrNone cid, strOrNone did,
            cfg.sha256 (json_dumps_sorted (to_json_safe (PValue.dict p))),
            to_json_safe (PValue.dict p)⟩]) } := by
  simp only [archive_raw_payload]
  rw [h]
  rfl

/-- C7: canonicalized payloads that are key-permutations of each other (no
duplicate keys) serialize identically, hash identically, the two archive
calls leave exactly one row for the triple (the second call is a no-op), and
an archive call whose triple already has a row is a no-op. -/
theorem raw_payload_dedup (cfg : Config) (db : DB) (r1 r2 rt rid : String)
    (p1 p2 : List (String × PValue)) (cid1 cid2 did1 did2 : Option String)
    (hp : p1.Perm p2) (hnd : (p1.map Prod.fst).Nodup) :
    json_dumps_sorted (to_json_safe (PValue.dict p1)) =
      json_dumps_sorted (to_json_safe (PValue.dict p2))
    ∧ cfg.sha256 (json_dumps_sorted (to_json_safe (PValue.dict p1))) =
        cfg.sha256 (json_dumps_sorted (to_json_safe (PValue.dict p2)))
    ∧ (∀ sha, sha = cfg.sha256 (json_dumps_sorted (to_json_safe (PValue.dict p1))) →
        rawCount db rt rid sha = 0 →
        rawCount (archive_raw_payload cfg
            (archive_raw_payload cfg db r1 rt rid p1 cid1 did1)
            r2 rt rid p2 cid2 did2) rt rid sha = 1
        ∧ archive_raw_payload cfg (archive_raw_payload cfg db r1 rt rid p1 cid1 did1)
            r2 rt rid p2 cid2 did2 =
          archive_raw_payload cfg db r1 rt rid p1 cid1 did1)
    ∧ (rawCount db rt rid (cfg.sha256 (json_dumps_sorted (to_json_safe (PValue.dict p1)))) ≠ 0 →
        archive_raw_payload cfg db r1 rt rid p1 cid1 did1 = db) := by
  have hser := json_dumps_dict_perm p1 p2 hp hnd
  have hsha : cfg.sha256 (json_dumps_sorted (to_json_safe (PValue.dict p1))) =
      cfg.sha256 (json_dumps_sorted (to_json_safe (PValue.dict p2))) := by rw [hser]
  refine ⟨hser, hsha, ?_, ?_⟩
  · intro sha hshaeq h0
    have hany : db.raw_payloads.any
        (rawMatches rt rid (cfg.sha256 (json_dumps_sorted (to_json_safe (PValue.dict p1)))))
        = false := by
      apply any_eq_false_of_filter_len_zero
      rw [hshaeq] at h0
      exact h0
    have hdb1 : archive_raw_payload cfg db r1 rt rid p1 cid1 did1 =
        { db with raw_payloads := (db.raw_payloads ++
            [⟨Option.some r1, cfg.source, rt, rid, strOrNone cid1, strOrNone did1,
              cfg.sha256 (json_dumps_sorted (to_json_safe (PValue.dict p1))),
              to_json_safe (PValue.dict p1)⟩]) } :=
      archive_raw_payload_add cfg db r1 rt rid p1 cid1 did1 hany
    have hrowmatch : rawMatches rt rid
        (cfg.sha256 (json_dumps_sorted (to_json_safe (PValue.dict p1))))
        ⟨Option.some r1, cfg.source, rt, rid, strOrNone cid1, strOrNone did1,
          cfg.sha256 (json_dumps_sorted (to_json_safe (PValue.dict p1))),
          to_json_safe (PValue.dict p1)⟩ = true := by
      simp [rawMatches]
    have hcount1 : rawCount (archive_raw_payload cfg db r1 rt rid p1 cid1 did1) rt rid
        (cfg.sha256 (json_dumps_sorted (to_json_safe (PValue.dict p1)))) = 1 := by
      rw [hdb1]
      unfold rawCount
      simp only [List.filter_append]
      rw [List.length_append]
      rw [hshaeq] at h0
      unfold rawCount at h0
      rw [h0]
      simp [hrowmatch]
    have hany2 : (archive_raw_payload cfg db r1 rt rid p1 cid1 did1).raw_payloads.any
        (rawMatches rt rid (cfg.sha256 (json_dumps_sorted (to_json_safe (PValue.dict p2)))))
        = true := by
      apply any_eq_true_of_filter_len_pos
      rw [← hsha]
      intro hcon
      rw [show ((archive_raw_payload cfg db r1 rt rid p1 cid1 did1).raw_payloads.filter
        (rawMatches rt rid (cfg.sha256 (json_dumps_sorted (to_json_safe
          (PValue.dict p1)))))).length = rawCount (archive_raw_payload cfg db r1 rt rid p1
            cid1 did1) rt rid (cfg.sha256 (json_dumps_sorted (to_json_safe (PValue.dict p1))))
        from rfl] at hcon
      rw [hcount1] at hcon
      simp at hcon
    have hnoop : archive_raw_payload cfg (archive_raw_payload cfg db r1 rt rid p1 cid1 did1)
        r2 rt rid p2 cid2 did2 = archive_raw_payload cfg db r1 rt rid p1 cid1 did1 :=
      archive_raw_payload_skip cfg _ r2 rt rid p2 cid2 did2 hany2
    constructor
    · rw [hnoop, hshaeq, hcount1]
    · exact hnoop
  · intro hne
    have hany : db.raw_payloads.any
        (rawMatches rt rid (cfg.sha256 (json_dumps_sorted (to_json_safe (PValue.dict p1)))))
        = true := any_eq_true_of_filter_len_pos _ _ hne
    exact archive_raw_payload_skip cfg db r1 rt rid p1 cid1 did1 hany

def p1c : List (String × PValue) := [("b", PValue.int 2), ("a", PValue.str "x")]

def p2c : List (String × PValue) := [("a", PValue.str "x"), ("b", PValue.int 2)]

/-- C7 witness: archiving the same dict twice with opposite insertion orders
leaves exactly one row. -/
theorem raw_payload_dedup_witness :
    rawCount (archive_raw_payload cfg0
        (archive_raw_payload cfg0 dbEmpty "r1" "case" "c1" p1c Option.none Option.none)
        "r2" "case" "c1" p2c Option.none Option.none) "case" "c1"
      (cfg0.sha256 (json_dumps_sorted (to_json_safe (PValue.dict p1c)))) = 1 :=
  ((raw_payload_dedup cfg0 dbEmpty "r1" "r2" "case" "c1" p1c p2c
      Option.none Option.none Option.none Option.none
      (List.Perm.swap ("a", PValue.str "x") ("b", PValue.int 2) [])
      (by decide)).2.2.1 _ rfl rfl).1

/-- First exception raised while iterating a stream, if any. -/
def firstErr {α : Type} : List (Except String α) → Option String
  | [] => Option.none
  | Except.error e :: _ => Option.some e
  | Except.ok _ :: rest => firstErr rest

/-- The exception a case's ingestion raises, if any: the first error in its
docket stream, else the first error in its document stream. -/
def caseErr (client : Client) (c : CaseT) : Option String :=
  match firstErr (client.list_dockets c.id) with
  | Option.some e => Option.some e
  | Option.none => firstErr (client.list_documents c.id)

theorem ingest_dockets_error (cfg : Config) (run_id : String) (e : String) :
    ∀ (entries : List (Except String DocketT)) (s : DB) (n : Nat),
      firstErr entries = Option.some e →
      ingest_dockets cfg run_id entries s n = Except.error e := by
  intro entries
  induction entries with
  | nil => intro s n h; simp [firstErr] at h
  | cons hd tl ih =>
    intro s n h
    cases hd with
    | error e2 =>
      simp [firstErr] at h
      simp [ingest_dockets, h]
    | ok d =>
      simp only [firstErr] at h
      simp only [ingest_dockets]
      exact ih _ _ h

theorem ingest_dockets_ok (cfg : Config) (run_id : String) :
    ∀ (entries : List (Except String DocketT)) (s : DB) (n : Nat),
      firstErr entries = Option.none →
      ∃ s2 k, ingest_dockets cfg run_id entries s n = Except.ok (s2, k)
        ∧ s2.runs = s.runs ∧ s2.checkpoints = s.checkpoints := by
  intro entries
  induction entries with
  | nil => intro s n _; exact ⟨s, n, rfl, rfl, rfl⟩
  | cons hd tl ih =>
    intro s n h
    cases hd with
    | error e2 => simp [firstErr] at h
    | ok d =>
      simp only [firstErr] at h
      simp only [ingest_dockets]
      obtain ⟨s2, k, heq, hruns, hcps⟩ := ih
        (if cfg.archive_raw_payloads then
          archive_raw_payload cfg (upsert_docket s d) run_id "docket" d.id d.metadata
            (Option.some d.case_id) (Option.some d.id)
         else upsert_docket s d) (n + 1) h
      refine ⟨s2, k, heq, ?_, ?_⟩
      · rw [hruns]
        by_cases ha : cfg.archive_raw_payloads
        · simp [ha, archive_raw_payload, upsert_docket]
          split <;> rfl
        · simp [ha, upsert_docket]
      · rw [hcps]
        by_cases ha : cfg.archive_raw_payloads
        · simp [ha, archive_raw_payload, upsert_docket]
          split <;> rfl
        · simp [ha, upsert_docket]

theorem ingest_documents_error (cfg : Config) (run_id : String) (e : String) :
    ∀ (entries : List (Except String DocumentT)) (s : DB) (n : Nat),
      firstErr entries = Option.some e →
      ingest_documents cfg run_id entries s n = Except.error e := by
  intro entries
  induction entries with
  | nil => intro s n h; simp [firstErr] at h
  | cons hd tl ih =>
    intro s n h
    cases hd with
    | error e2 =>
      simp [firstErr] at h
      simp [ingest_documents, h]
    | ok d =>
      simp only [firstErr] at h
      simp only [ingest_documents]
      exact ih _ _ h

theorem ingest_documents_ok (cfg : Config) (run_id : String) :
    ∀ (entries : List (Except String DocumentT)) (s : DB) (n : Nat),
      firstErr entries = Option.none →
      ∃ s2 k, ingest_documents cfg run_id entries s n = Except.ok (s2, k)
        ∧ s2.runs = s.runs ∧ s2.checkpoints = s.checkpoints := by
  intro entries
  induction entries with
  | nil => intro s n _; exact ⟨s, n, rfl, rfl, rfl⟩
  | cons hd tl ih =>
    intro s n h
    cases hd with
    | error e2 => simp [firstErr] at h
    | ok d =>
      simp only [firstErr] at h
      simp only [ingest_documents]
      obtain ⟨s2, k, heq, hruns, hcps⟩ := ih
        (if cfg.archive_raw_payloads then
          archive_raw_payload cfg (upsert_document s d (Option.some (cfg.summarize d)))
            run_id "document" d.id d.metadata (Option.some d.case_id) d.docket_id
         else upsert_document s d (Option.some (cfg.summarize d))) (n + 1) h
      refine ⟨s2, k, heq, ?_, ?_⟩
      · rw [hruns]
        by_cases ha : cfg.archive_raw_payloads
        · simp [ha, archive_raw_payload, upsert_document]
          split <;> rfl
        · simp [ha, upsert_document]
      · rw [hcps]
        by_cases ha : cfg.archive_raw_payloads
        · simp [ha, archive_raw_payload, upsert_document]
          split <;> rfl
        · simp [ha, upsert_document]

theorem ingest_dockets_preserves (cfg : Config) (run_id : String) :
    ∀ (entries : List (Except String DocketT)) (s : DB) (n : Nat) (s2 : DB) (k : Nat),
      ingest_dockets cfg run_id entries s n = Except.ok (s2, k) →
      s2.runs = s.runs ∧ s2.checkpoints = s.checkpoints := by
  intro entries
  induction entries with
  | nil =>
    intro s n s2 k h
    simp [ingest_dockets] at h
    rw [← h.1]
    exact ⟨rfl, rfl⟩
  | cons hd tl ih =>
    intro s n s2 k h
    cases hd with
    | error e2 => simp [ingest_dockets] at h
    | ok d =>
      simp only [ingest_dockets] at h
      obtain ⟨hruns, hcps⟩ := ih _ _ _ _ h
      refine ⟨hruns.trans ?_, hcps.trans ?_⟩
      · by_cases ha : cfg.archive_raw_payloads
        · simp [ha, archive_raw_payload, upsert_docket]
          split <;> rfl
        · simp [ha, upsert_docket]
      · by_cases ha : cfg.archive_raw_payloads
        · simp [ha, archive_raw_payload, upsert_docket]
          split <;> rfl
        · simp [ha, upsert_docket]

theorem ingest_documents_preserves (cfg : Config) (run_id : String) :
    ∀ (entries : List (Except String DocumentT)) (s : DB) (n : Nat) (s2 : DB) (k : Nat),
      ingest_documents cfg run_id entries s n = Except.ok (s2, k) →
      s2.runs = s.runs ∧ s2.checkpoints = s.checkpoints := by
  intro entries
  induction entries with
  | nil =>
    intro s n s2 k h
    simp [ingest_documents] at h
    rw [← h.1]
    exact ⟨rfl, rfl⟩
  | cons hd tl ih =>
    intro s n s2 k h
    cases hd with
    | error e2 => simp [ingest_documents] at h
    | ok d =>
      simp only [ingest_documents] at h
      obtain ⟨hruns, hcps⟩ := ih _ _ _ _ h
      refine ⟨hruns.trans ?_, hcps.trans ?_⟩
      · by_cases ha : cfg.archive_raw_payloads
        · simp [ha, archive_raw_payload, upsert_document]
          split <;> rfl
        · simp [ha, upsert_document]
      · by_cases ha : cfg.archive_raw_payloads
        · simp [ha, archive_raw_payload, upsert_document]
          split <;> rfl
        · simp [ha, upsert_document]

theorem ingest_case_preserves (cfg : Config) (client : Client) (db : DB) (run_id : String)
    (c : CaseT) (db1 : DB) (dk dc : Nat)
    (h : ingest_case cfg client db run_id c = Except.ok (db1, dk, dc)) :
    db1.runs = db.runs ∧ db1.checkpoints = db.checkpoints := by
  simp only [ingest_case] at h
  cases hdk : ingest_dockets cfg run_id (client.list_dockets c.id)
      (if cfg.archive_raw_payloads then
        archive_raw_payload cfg (upsert_case db c) run_id "case" c.id c.metadata
          (Option.some c.id) Option.none
       else upsert_case db c) 0 with
  | error e => rw [hdk] at h; simp at h
  | ok val =>
    obtain ⟨s2, k⟩ := val
    rw [hdk] at h
    dsimp only at h
    cases hdc : ingest_documents cfg run_id (client.list_documents c.id) s2 0 with
    | error e => rw [hdc] at h; simp at h
    | ok val2 =>
      obtain ⟨s3, k2⟩ := val2
      rw [hdc] at h
      simp at h
      obtain ⟨h3, _, _⟩ := h
      obtain ⟨hr2, hc2⟩ := ingest_dockets_preserves cfg run_id _ _ _ _ _ hdk
      obtain ⟨hr3, hc3⟩ := ingest_documents_preserves cfg run_id _ _ _ _ _ hdc
      rw [← h3]
      constructor
      · rw [hr3, hr2]
        by_cases ha : cfg.archive_raw_payloads
        · simp [ha, archive_raw_payload, upsert_case]
          split <;> rfl
        · simp [ha, upsert_case]
      · rw [hc3, hc2]
        by_cases ha : cfg.archive_raw_payloads
        · simp [ha, archive_raw_payload, upsert_case]
          split <;> rfl
        · simp [ha, upsert_case]

theorem ingest_case_error (cfg : Config) (client : Client) (db : DB) (run_id : String)
    (c : CaseT) (e : String) (h : caseErr client c = Option.some e) :
    ingest_case cfg client db run_id c = Except.error e := by
  unfold caseErr at h
  simp only [ingest_case]
  cases hd : firstErr (client.list_dockets c.id) with
  | some e2 =>
    rw [hd] at h
    injection h with h2
    subst h2
    rw [ingest_dockets_error cfg run_id e2 _ _ _ hd]
  | none =>
    rw [hd] at h
    obtain ⟨s2, k, heq, _, _⟩ := ingest_dockets_ok cfg run_id (client.list_dockets c.id)
      (if cfg.archive_raw_payloads then
        archive_raw_payload cfg (upsert_case db c) run_id "case" c.id c.metadata
          (Option.some c.id) Option.none
       else upsert_case db c) 0 hd
    rw [heq]
    dsimp only
    rw [ingest_documents_error cfg run_id e _ _ _ h]

theorem ingest_case_success (cfg : Config) (client : Client) (db : DB) (run_id : String)
    (c : CaseT) (h : caseErr client c = Option.none) :
    ∃ db1 dk dc, ingest_case cfg client db run_id c = Except.ok (db1, dk, dc) := by
  unfold caseErr at h
  simp only [ingest_case]
  cases hd : firstErr (client.list_dockets c.id) with
  | some e2 => rw [hd] at h; simp at h
  | none =>
    rw [hd] at h
    obtain ⟨s2, k, heq, _, _⟩ := ingest_dockets_ok cfg run_id (client.list_dockets c.id)
      (if cfg.archive_raw_payloads then
        archive_raw_payload cfg (upsert_case db c) run_id "case" c.id c.metadata
          (Option.some c.id) Option.none
       else upsert_case db c) 0 hd
    rw [heq]
    dsimp only
    obtain ⟨s3, k2, heq2, _, _⟩ := ingest_documents_ok cfg run_id
      (client.list_documents c.id) s2 0 h
    rw [heq2]
    exact ⟨s3, k, k2, rfl⟩

/-- The run statuses the loop can be in. -/
def statusS (st : LoopState) : Prop :=
  st.final_status = "success" ∨ st.final_status = "partial" ∨ st.final_status = "failed"

theorem runLoop_inv (cfg : Config) (client : Client) (rid : String) (limit : Option Nat) :
    ∀ (entries : List (Except String CaseT)) (idx : Nat) (st : LoopState),
      ((runLoop cfg client rid limit entries idx st).db.runs = st.db.runs)
      ∧ (statusS st → statusS (runLoop cfg client rid limit entries idx st))
      ∧ ((∀ e, st.fatal_error = Option.some e → st.final_status = "failed") →
         ∀ e, (runLoop cfg client rid limit entries idx st).fatal_error = Option.some e →
           (runLoop cfg client rid limit entries idx st).final_status = "failed") := by
  intro entries
  induction entries with
  | nil => intro idx st; exact ⟨rfl, fun h => h, fun h => h⟩
  | cons hd tl ih =>
    intro idx st
    cases hd with
    | error e =>
      refine ⟨rfl, fun _ => Or.inr (Or.inr rfl), fun _ e2 _ => rfl⟩
    | ok c =>
      by_cases hlim : limitReached limit idx
      · simp only [runLoop, hlim, if_true]
        refine ⟨by trivial, fun h => h, fun h => h⟩
      · simp only [runLoop, hlim, if_false]
        cases hi : ingest_case cfg client st.db rid c with
        | ok val =>
          obtain ⟨db1, dk, dc⟩ := val
          simp only [runStep, hi]
          obtain ⟨hruns1, _⟩ := ingest_case_preserves cfg client st.db rid c db1 dk dc hi
          have hdb2 : (if truthy_str cfg.checkpoint_key then
              update_checkpoint cfg db1 (cfg.checkpoint_key.getD "") c rid
             else db1).runs = st.db.runs := by
            by_cases hk : truthy_str cfg.checkpoint_key
            · simp [hk, update_checkpoint]
              exact hruns1
            · simp [hk]
              exact hruns1
          obtain ⟨ihr, ihs, ihf⟩ := ih (idx + 1) _
          refine ⟨ihr.trans hdb2, fun hs => ihs ?_, fun hf => ihf ?_⟩
          · exact hs
          · exact hf
        | error e =>
          simp only [runStep, hi]
          cases hcont : cfg.continue_on_error with
          | true =>
            simp only [if_true]
            obtain ⟨ihr, ihs, ihf⟩ := ih (idx + 1) _
            refine ⟨ihr.trans rfl, fun hs => ihs ?_, fun hf => ihf ?_⟩
            · rcases hs with h1 | h1 | h1
              · exact Or.inr (Or.inl (by rw [h1]; rfl))
              · exact Or.inr (Or.inl (by rw [h1]; rfl))
              · exact Or.inr (Or.inr (by rw [h1]; rfl))
            · intro e2 he2
              have h3 := hf e2 he2
              rw [h3]
              rfl
          | false =>
            rw [if_neg (by decide : ¬ (false = true))]
            exact ⟨rfl, fun _ => Or.inr (Or.inr rfl), fun _ e2 _ => rfl⟩

/-- C6: on every exit path of `run` the Run row is finalized — final status
written, finish timestamp set, counters recorded — and the caller receives
either the stats (with the same counters the row records) or the propagated
exception, the latter only with the run recorded as failed. -/
theorem run_always_finalized (cfg : Config) (client : Client) (db0 : DB) (run_id : String)
    (since : Option DT) (case_limit : Option Nat) (resume : Bool) :
    ∃ row : RunRow,
      lookupA (runPipeline cfg client db0 run_id since case_limit resume).1.runs run_id =
        Option.some row
      ∧ row.finished = true
      ∧ (row.status = "success" ∨ row.status = "partial" ∨ row.status = "failed")
      ∧ ((∃ s, (runPipeline cfg client db0 run_id since case_limit resume).2 = Except.ok s
            ∧ row.cases_ingested = s.cases ∧ row.dockets_ingested = s.dockets
            ∧ row.documents_ingested = s.documents ∧ row.errors = s.errors)
         ∨ (∃ e, (runPipeline cfg client db0 run_id since case_limit resume).2 =
              Except.error e ∧ row.status = "failed")) := by
  simp only [runPipeline]
  obtain ⟨hruns, hstat, hfat⟩ := runLoop_inv cfg client run_id case_limit
    (client.list_cases (resolveEffectiveSince cfg db0 since resume).1) 0
    ⟨start_run_record cfg db0 run_id (normalize_datetime since)
        (resolveEffectiveSince cfg db0 since resume).1 case_limit
        (resolveEffectiveSince cfg db0 since resume).2,
      ⟨Option.some run_id, (resolveEffectiveSince cfg db0 since resume).1,
        (resolveEffectiveSince cfg db0 since resume).2, 0, 0, 0, 0⟩,
      "success", Option.none, Option.none⟩
  generalize hG : runLoop cfg client run_id case_limit
    (client.list_cases (resolveEffectiveSince cfg db0 since resume).1) 0
    ⟨start_run_record cfg db0 run_id (normalize_datetime since)
        (resolveEffectiveSince cfg db0 since resume).1 case_limit
        (resolveEffectiveSince cfg db0 since resume).2,
      ⟨Option.some run_id, (resolveEffectiveSince cfg db0 since resume).1,
        (resolveEffectiveSince cfg db0 since resume).2, 0, 0, 0, 0⟩,
      "success", Option.none, Option.none⟩ = stF
  rw [hG] at hruns hstat hfat
  have hlk : lookupA stF.db.runs run_id = Option.some
      ⟨run_id, cfg.source, "running", false, normalize_datetime since,
        (resolveEffectiveSince cfg db0 since resume).1, case_limit, cfg.checkpoint_key,
        (resolveEffectiveSince cfg db0 since resume).2, 0, 0, 0, 0, Option.none⟩ := by
    rw [hruns]
    exact lookupA_upsertA_self db0.runs run_id _
  have hstatF : statusS stF := hstat (Or.inl rfl)
  have hfin : finish_run_record stF.db run_id stF.final_status stF.stats
      stF.fatal_error_message =
      { stF.db with runs := (upsertA stF.db.runs run_id
          { id := run_id, source := cfg.source, status := stF.final_status, finished := true,
            requested_since := normalize_datetime since,
            effective_since := (resolveEffectiveSince cfg db0 since resume).1,
            case_limit := case_limit, checkpoint_key := cfg.checkpoint_key,
            resumed_from_checkpoint := (resolveEffectiveSince cfg db0 since resume).2,
            cases_ingested := stF.stats.cases, dockets_ingested := stF.stats.dockets,
            documents_ingested := stF.stats.documents, errors := stF.stats.errors,
            error_message := stF.fatal_error_message }) } := by
    unfold finish_run_record
    rw [hlk]
  cases hf : stF.fatal_error with
  | none =>
    refine ⟨⟨run_id, cfg.source, stF.final_status, true, normalize_datetime since,
        (resolveEffectiveSince cfg db0 since resume).1, case_limit, cfg.checkpoint_key,
        (resolveEffectiveSince cfg db0 since resume).2, stF.stats.cases, stF.stats.dockets,
        stF.stats.documents, stF.stats.errors, stF.fatal_error_message⟩,
      ?_, rfl, hstatF, Or.inl ⟨stF.stats, rfl, rfl, rfl, rfl, rfl⟩⟩
    dsimp only
    rw [hfin]
    exact lookupA_upsertA_self stF.db.runs run_id _
  | some e =>
    have hfailed : stF.final_status = "failed" :=
      hfat (fun e2 h2 => by cases h2) e hf
    refine ⟨⟨run_id, cfg.source, stF.final_status, true, normalize_datetime since,
        (resolveEffectiveSince cfg db0 since resume).1, case_limit, cfg.checkpoint_key,
        (resolveEffectiveSince cfg db0 since resume).2, stF.stats.cases, stF.stats.dockets,
        stF.stats.documents, stF.stats.errors, stF.fatal_error_message⟩,
      ?_, rfl, hstatF, Or.inr ⟨e, rfl, hfailed⟩⟩
    dsimp only
    rw [hfin]
    exact lookupA_upsertA_self stF.db.runs run_id _

theorem runLoop_continue (cfg : Config) (client : Client) (rid : String)
    (hcont : cfg.continue_on_error = true) :
    ∀ (cs : List CaseT) (idx : Nat) (st : LoopState), st.fatal_error = Option.none →
      ((runLoop cfg client rid Option.none (cs.map Except.ok) idx st).stats.errors =
        st.stats.errors + (cs.filter (fun c => (caseErr client c).isSome)).length)
      ∧ ((runLoop cfg client rid Option.none (cs.map Except.ok) idx st).stats.cases =
        st.stats.cases + (cs.filter (fun c => (caseErr client c).isNone)).length)
      ∧ ((runLoop cfg client rid Option.none (cs.map Except.ok) idx st).final_status =
        (if st.final_status = "success" ∧ cs.any (fun c => (caseErr client c).isSome) = true
         then "partial" else st.final_status))
      ∧ ((runLoop cfg client rid Option.none (cs.map Except.ok) idx st).fatal_error =
        Option.none) := by
  intro cs
  induction cs with
  | nil =>
    intro idx st hf
    refine ⟨by simp [runLoop], by simp [runLoop], ?_, by simp [runLoop, hf]⟩
    simp [runLoop]
  | cons c cs ih =>
    intro idx st hf
    have hl : limitReached Option.none idx = false := rfl
    cases hc : caseErr client c with
    | none =>
      obtain ⟨db1, dk, dc, hi⟩ := ingest_case_success cfg client st.db rid c hc
      have hstep : runStep cfg client rid st c =
          ({ st with
              db := (if truthy_str cfg.checkpoint_key then
                  update_checkpoint cfg db1 (cfg.checkpoint_key.getD "") c rid
                else db1)
              stats := { st.stats with
                cases := st.stats.cases + 1, dockets := st.stats.dockets + dk,
                documents := st.stats.documents + dc } }, true) := by
        simp only [runStep, hi]
      have hloop : runLoop cfg client rid Option.none ((c :: cs).map Except.ok) idx st =
          runLoop cfg client rid Option.none (cs.map Except.ok) (idx + 1)
            ({ st with
              db := (if truthy_str cfg.checkpoint_key then
                  update_checkpoint cfg db1 (cfg.checkpoint_key.getD "") c rid
                else db1)
              stats := { st.stats with
                cases := st.stats.cases + 1, dockets := st.stats.dockets + dk,
                documents := st.stats.documents + dc } }) := by
        simp only [List.map_cons, runLoop, hl, hstep]
        rfl
      obtain ⟨ihe, ihc, ihs, ihf⟩ := ih (idx + 1)
        { st with
          db := (if truthy_str cfg.checkpoint_key then
              update_checkpoint cfg db1 (cfg.checkpoint_key.getD "") c rid
            else db1)
          stats := { st.stats with
            cases := st.stats.cases + 1, dockets := st.stats.dockets + dk,
            documents := st.stats.documents + dc } } hf
      rw [hloop]
      refine ⟨?_, ?_, ?_, ihf⟩
      · rw [ihe]
        simp [hc]
      · rw [ihc]
        simp [hc]
        omega
      · rw [ihs]
        simp [hc]
    | some e =>
      have hi := ingest_case_error cfg client st.db rid c e hc
      have hstep : runStep cfg client rid st c =
          ({ st with
              stats := { st.stats with errors := st.stats.errors + 1 }
              final_status :=
                (if st.final_status = "success" then "partial" else st.final_status)
              fatal_error_message := Option.some e }, true) := by
        simp only [runStep, hi, hcont, if_true]
      have hloop : runLoop cfg client rid Option.none ((c :: cs).map Except.ok) idx st =
          runLoop cfg client rid Option.none (cs.map Except.ok) (idx + 1)
            { st with
              stats := { st.stats with errors := st.stats.errors + 1 }
              final_status :=
                (if st.final_status = "success" then "partial" else st.final_status)
              fatal_error_message := Option.some e } := by
        simp only [List.map_cons, runLoop, hl, hstep]
        rfl
      obtain ⟨ihe, ihc, ihs, ihf⟩ := ih (idx + 1)
        { st with
          stats := { st.stats with errors := st.stats.errors + 1 }
          final_status :=
            (if st.final_status = "success" then "partial" else st.final_status)
          fatal_error_message := Option.some e } hf
      rw [hloop]
      refine ⟨?_, ?_, ?_, ihf⟩
      · rw [ihe]
        simp [hc]
        omega
      · rw [ihc]
        simp [hc]
      · rw [ihs]
        by_cases hs : st.final_status = "success"
        · simp [hs, hc]
        · simp [hs, hc]

theorem runLoop_abort (cfg : Config) (client : Client) (rid : String)
    (hcont : cfg.continue_on_error = false) :
    ∀ (pre : List CaseT) (c : CaseT) (rest : List (Except String CaseT)) (e : String)
      (idx : Nat) (st : LoopState),
      (∀ c2 ∈ pre, caseErr client c2 = Option.none) →
      caseErr client c = Option.some e →
      ((runLoop cfg client rid Option.none (pre.map Except.ok ++ Except.ok c :: rest)
          idx st).fatal_error = Option.some e)
      ∧ ((runLoop cfg client rid Option.none (pre.map Except.ok ++ Except.ok c :: rest)
          idx st).final_status = "failed")
      ∧ ((runLoop cfg client rid Option.none (pre.map Except.ok ++ Except.ok c :: rest)
          idx st).stats.errors = st.stats.errors + 1)
      ∧ ((runLoop cfg client rid Option.none (pre.map Except.ok ++ Except.ok c :: rest)
          idx st).stats.cases = st.stats.cases + pre.length) := by
  intro pre
  induction pre with
  | nil =>
    intro c rest e idx st _ hc
    have hi := ingest_case_error cfg client st.db rid c e hc
    have hl : limitReached Option.none idx = false := rfl
    have hstep : runStep cfg client rid st c =
        ({ st with
            stats := { st.stats with errors := st.stats.errors + 1 }
            final_status := "failed"
            fatal_error := Option.some e
            fatal_error_message := Option.some e }, false) := by
      simp only [runStep, hi, hcont]
      rfl
    have hloop : runLoop cfg client rid Option.none
        (([] : List CaseT).map Except.ok ++ Except.ok c :: rest) idx st =
        { st with
          stats := { st.stats with errors := st.stats.errors + 1 }
          final_status := "failed"
          fatal_error := Option.some e
          fatal_error_message := Option.some e } := by
      simp only [List.map_nil, List.nil_append, runLoop, hl, hstep]
      rfl
    rw [hloop]
    exact ⟨rfl, rfl, rfl, rfl⟩
  | cons c0 pre ih =>
    intro c rest e idx st hpre hc
    have hc0 : caseErr client c0 = Option.none := hpre c0 (List.mem_cons_self c0 pre)
    obtain ⟨db1, dk, dc, hi⟩ := ingest_case_success cfg client st.db rid c0 hc0
    have hl : limitReached Option.none idx = false := rfl
    have hstep : runStep cfg client rid st c0 =
        ({ st with
            db := (if truthy_str cfg.checkpoint_key then
                update_checkpoint cfg db1 (cfg.checkpoint_key.getD "") c0 rid
              else db1)
            stats := { st.stats with
              cases := st.stats.cases + 1, dockets := st.stats.dockets + dk,
              documents := st.stats.documents + dc } }, true) := by
      simp only [runStep, hi]
    have hloop : runLoop cfg client rid Option.none
        ((c0 :: pre).map Except.ok ++ Except.ok c :: rest) idx st =
        runLoop cfg client rid Option.none (pre.map Except.ok ++ Except.ok c :: rest)
          (idx + 1)
          { st with
            db := (if truthy_str cfg.checkpoint_key then
                update_checkpoint cfg db1 (cfg.checkpoint_key.getD "") c0 rid
              else db1)
            stats := { st.stats with
              cases := st.stats.cases + 1, dockets := st.stats.dockets + dk,
              documents := st.stats.documents + dc } } := by
      simp only [List.map_cons, List.cons_append, runLoop, hl, hstep]
      rfl
    obtain ⟨ihf, ihs, ihe, ihc⟩ := ih c rest e (idx + 1)
      { st with
        db := (if truthy_str cfg.checkpoint_key then
            update_checkpoint cfg db1 (cfg.checkpoint_key.getD "") c0 rid
          else db1)
        stats := { st.stats with
          cases := st.stats.cases + 1, dockets := st.stats.dockets + dk,
          documents := st.stats.documents + dc } }
      (fun c2 h2 => hpre c2 (List.mem_cons_of_mem c0 h2)) hc
    rw [hloop]
    refine ⟨ihf, ihs, ?_, ?_⟩
    · rw [ihe]
    · rw [ihc]
      simp
      omega

/-- C5: per-case failure policy of `run`.  With continue-on-error the run
returns stats whose error counter counts exactly the failing cases, whose
case counter counts the successes even after failures, and the recorded
status is `partial` precisely when some case failed (later successes never
re-escalate it to `success`).  Without continue-on-error the first failure
aborts the run: the exception is re-raised to the caller, the Run row is
finalized as `failed` before that, the error counter is 1 and only the cases
before the failing one were ingested. -/
theorem run_error_policy :
    (∀ (cfg : Config) (client : Client) (db0 : DB) (run_id : String) (since : Option DT)
        (resume : Bool) (cs : List CaseT),
      cfg.continue_on_error = true →
      client.list_cases (resolveEffectiveSince cfg db0 since resume).1 = cs.map Except.ok →
      ∃ s, (runPipeline cfg client db0 run_id since Option.none resume).2 = Except.ok s
        ∧ s.errors = (cs.filter (fun c => (caseErr client c).isSome)).length
        ∧ s.cases = (cs.filter (fun c => (caseErr client c).isNone)).length
        ∧ ∃ row, lookupA (runPipeline cfg client db0 run_id since Option.none resume).1.runs
            run_id = Option.some row
          ∧ row.status = (if cs.any (fun c => (caseErr client c).isSome) = true
              then "partial" else "success"))
    ∧
    (∀ (cfg : Config) (client : Client) (db0 : DB) (run_id : String) (since : Option DT)
        (resume : Bool) (pre : List CaseT) (c : CaseT) (rest : List (Except String CaseT))
        (e : String),
      cfg.continue_on_error = false →
      client.list_cases (resolveEffectiveSince cfg db0 since resume).1 =
        pre.map Except.ok ++ Except.ok c :: rest →
      (∀ c2 ∈ pre, caseErr client c2 = Option.none) →
      caseErr client c = Option.some e →
      (runPipeline cfg client db0 run_id since Option.none resume).2 = Except.error e
      ∧ ∃ row, lookupA (runPipeline cfg client db0 run_id since Option.none resume).1.runs
          run_id = Option.some row
        ∧ row.status = "failed" ∧ row.finished = true
        ∧ row.errors = 1 ∧ row.cases_ingested = pre.length) := by
  constructor
  · intro cfg client db0 run_id since resume cs hcont hlist
    simp only [runPipeline]
    rw [hlist]
    obtain ⟨herr, hcase, hstatus, hfatal⟩ := runLoop_continue cfg client run_id hcont cs 0
      ⟨start_run_record cfg db0 run_id (normalize_datetime since)
          (resolveEffectiveSince cfg db0 since resume).1 Option.none
          (resolveEffectiveSince cfg db0 since resume).2,
        ⟨Option.some run_id, (resolveEffectiveSince cfg db0 since resume).1,
          (resolveEffectiveSince cfg db0 since resume).2, 0, 0, 0, 0⟩,
        "success", Option.none, Option.none⟩ rfl
    obtain ⟨hruns, _, _⟩ := runLoop_inv cfg client run_id Option.none (cs.map Except.ok) 0
      ⟨start_run_record cfg db0 run_id (normalize_datetime since)
          (resolveEffectiveSince cfg db0 since resume).1 Option.none
          (resolveEffectiveSince cfg db0 since resume).2,
        ⟨Option.some run_id, (resolveEffectiveSince cfg db0 since resume).1,
          (resolveEffectiveSince cfg db0 since resume).2, 0, 0, 0, 0⟩,
        "success", Option.none, Option.none⟩
    generalize hG : runLoop cfg client run_id Option.none (cs.map Except.ok) 0
      ⟨start_run_record cfg db0 run_id (normalize_datetime since)
          (resolveEffectiveSince cfg db0 since resume).1 Option.none
          (resolveEffectiveSince cfg db0 since resume).2,
        ⟨Option.some run_id, (resolveEffectiveSince cfg db0 since resume).1,
          (resolveEffectiveSince cfg db0 since resume).2, 0, 0, 0, 0⟩,
        "success", Option.none, Option.none⟩ = stF
    rw [hG] at herr hcase hstatus hfatal hruns
    rw [hfatal]
    have hlk : lookupA stF.db.runs run_id = Option.some
        ⟨run_id, cfg.source, "running", false, normalize_datetime since,
          (resolveEffectiveSince cfg db0 since resume).1, Option.none, cfg.checkpoint_key,
          (resolveEffectiveSince cfg db0 since resume).2, 0, 0, 0, 0, Option.none⟩ := by
      rw [hruns]
      exact lookupA_upsertA_self db0.runs run_id _
    have hfin : finish_run_record stF.db run_id stF.final_status stF.stats
        stF.fatal_error_message =
        { stF.db with runs := (upsertA stF.db.runs run_id
            ⟨run_id, cfg.source, stF.final_status, true, normalize_datetime since,
              (resolveEffectiveSince cfg db0 since resume).1, Option.none,
              cfg.checkpoint_key, (resolveEffectiveSince cfg db0 since resume).2,
              stF.stats.cases, stF.stats.dockets, stF.stats.documents, stF.stats.errors,
              stF.fatal_error_message⟩) } := by
      unfold finish_run_record
      rw [hlk]
    refine ⟨stF.stats, rfl, ?_, ?_, ?_⟩
    · rw [herr]
      simp
    · rw [hcase]
      simp
    · refine ⟨⟨run_id, cfg.source, stF.final_status, true, normalize_datetime since,
          (resolveEffectiveSince cfg db0 since resume).1, Option.none,
          cfg.checkpoint_key, (resolveEffectiveSince cfg db0 since resume).2,
          stF.stats.cases, stF.stats.dockets, stF.stats.documents, stF.stats.errors,
          stF.fatal_error_message⟩, ?_, ?_⟩
      · dsimp only
        rw [hfin]
        exact lookupA_upsertA_self stF.db.runs run_id _
      · dsimp only
        rw [hstatus]
        by_cases hany : (cs.any fun c => (caseErr client c).isSome) = true
        · simp [hany]
        · simp [hany]
  · intro cfg client db0 run_id since resume pre c rest e hcont hlist hpre hc
    simp only [runPipeline]
    rw [hlist]
    obtain ⟨ihf, ihs, ihe, ihc⟩ := runLoop_abort cfg client run_id hcont pre c rest e 0
      ⟨start_run_record cfg db0 run_id (normalize_datetime since)
          (resolveEffectiveSince cfg db0 since resume).1 Option.none
          (resolveEffectiveSince cfg db0 since resume).2,
        ⟨Option.some run_id, (resolveEffectiveSince cfg db0 since resume).1,
          (resolveEffectiveSince cfg db0 since resume).2, 0, 0, 0, 0⟩,
        "success", Option.none, Option.none⟩ hpre hc
    obtain ⟨hruns, _, _⟩ := runLoop_inv cfg client run_id Option.none
      (pre.map Except.ok ++ Except.ok c :: rest) 0
      ⟨start_run_record cfg db0 run_id (normalize_datetime since)
          (resolveEffectiveSince cfg db0 since resume).1 Option.none
          (resolveEffectiveSince cfg db0 since resume).2,
        ⟨Option.some run_id, (resolveEffectiveSince cfg db0 since resume).1,
          (resolveEffectiveSince cfg db0 since resume).2, 0, 0, 0, 0⟩,
        "success", Option.none, Option.none⟩
    generalize hG : runLoop cfg client run_id Option.none
      (pre.map Except.ok ++ Except.ok c :: rest) 0
      ⟨start_run_record cfg db0 run_id (normalize_datetime since)
          (resolveEffectiveSince cfg db0 since resume).1 Option.none
          (resolveEffectiveSince cfg db0 since resume).2,
        ⟨Option.some run_id, (resolveEffectiveSince cfg db0 since resume).1,
          (resolveEffectiveSince cfg db0 since resume).2, 0, 0, 0, 0⟩,
        "success", Option.none, Option.none⟩ = stF
    rw [hG] at ihf ihs ihe ihc hruns
    rw [ihf]
    have hlk : lookupA stF.db.runs run_id = Option.some
        ⟨run_id, cfg.source, "running", false, normalize_datetime since,
          (resolveEffectiveSince cfg db0 since resume).1, Option.none, cfg.checkpoint_key,
          (resolveEffectiveSince cfg db0 since resume).2, 0, 0, 0, 0, Option.none⟩ := by
      rw [hruns]
      exact lookupA_upsertA_self db0.runs run_id _
    have hfin : finish_run_record stF.db run_id stF.final_status stF.stats
        stF.fatal_error_message =
        { stF.db with runs := (upsertA stF.db.runs run_id
            ⟨run_id, cfg.source, stF.final_status, true, normalize_datetime since,
              (resolveEffectiveSince cfg db0 since resume).1, Option.none,
              cfg.checkpoint_key, (resolveEffectiveSince cfg db0 since resume).2,
              stF.stats.cases, stF.stats.dockets, stF.stats.documents, stF.stats.errors,
              stF.fatal_error_message⟩) } := by
      unfold finish_run_record
      rw [hlk]
    refine ⟨rfl, ⟨run_id, cfg.source, stF.final_status, true, normalize_datetime since,
        (resolveEffectiveSince cfg db0 since resume).1, Option.none,
        cfg.checkpoint_key, (resolveEffectiveSince cfg db0 since resume).2,
        stF.stats.cases, stF.stats.dockets, stF.stats.documents, stF.stats.errors,
        stF.fatal_error_message⟩, ?_, ?_, rfl, ?_, ?_⟩
    · dsimp only
      rw [hfin]
      exact lookupA_upsertA_self stF.db.runs run_id _
    · exact ihs
    · dsimp only
      dsimp only at ihe
      rw [ihe]
    · dsimp only
      dsimp only at ihc
      rw [ihc]
      simp

def caseGood : CaseT :=
  ⟨"good", "Case good", Option.none, Option.none, Option.none, Option.some ⟨6, true⟩,
   Option.none, Option.none, []⟩

def caseBad : CaseT :=
  ⟨"bad", "Case bad", Option.none, Option.none, Option.none, Option.some ⟨7, true⟩,
   Option.none, Option.none, []⟩

/-- Fixture client: two cases, the second of which fails while its documents
are listed. -/
def clientMix : Client :=
  ⟨fun _ => [Except.ok caseGood, Except.ok caseBad],
   fun _ => [],
   fun cid => if cid = "bad" then [Except.error "boom"] else []⟩

def cfgNC : Config :=
  ⟨"mock", Option.some "k", true, false, fun s => s, fun _ => "summary"⟩

/-- C5 witness: with continue-on-error the mixed run returns stats with one
error and one ingested case and records `partial`; without it the same run
re-raises "boom" with the Run row finalized as failed after one error and one
ingested case. -/
theorem run_error_policy_witness :
    (∃ s, (runPipeline cfg0 clientMix dbEmpty "r5" Option.none Option.none false).2 =
        Except.ok s
      ∧ s.errors = (([caseGood, caseBad].filter
          (fun c => (caseErr clientMix c).isSome)).length)
      ∧ s.cases = (([caseGood, caseBad].filter
          (fun c => (caseErr clientMix c).isNone)).length)
      ∧ ∃ row, lookupA (runPipeline cfg0 clientMix dbEmpty "r5" Option.none Option.none
            false).1.runs "r5" = Option.some row
          ∧ row.status = (if ([caseGood, caseBad].any
              (fun c => (caseErr clientMix c).isSome)) = true then "partial" else "success"))
    ∧ ((runPipeline cfgNC clientMix dbEmpty "r6" Option.none Option.none false).2 =
        Except.error "boom"
      ∧ ∃ row, lookupA (runPipeline cfgNC clientMix dbEmpty "r6" Option.none Option.none
            false).1.runs "r6" = Option.some row
          ∧ row.status = "failed" ∧ row.finished = true ∧ row.errors = 1
          ∧ row.cases_ingested = [caseGood].length) :=
  ⟨run_error_policy.1 cfg0 clientMix dbEmpty "r5" Option.none false [caseGood, caseBad]
      rfl rfl,
   run_error_policy.2 cfgNC clientMix dbEmpty "r6" Option.none false [caseGood] caseBad []
      "boom" rfl rfl
      (by
        intro c2 h2
        rcases List.mem_singleton.mp h2 with rfl
        rfl)
      rfl⟩

theorem char_toNat_ofNat_valid (n : Nat) (h : n.isValidChar) : (Char.ofNat n).toNat = n := by
  unfold Char.ofNat
  rw [dif_pos h]
  rfl

theorem pyLowerChar_eq_space_iff (c : Char) : pyLowerChar c = ' ' ↔ c = ' ' := by
  constructor
  · intro h
    unfold pyLowerChar at h
    by_cases hc : 65 ≤ c.toNat ∧ c.toNat ≤ 90
    · rw [if_pos hc] at h
      have h2 := congrArg Char.toNat h
      rw [char_toNat_ofNat_valid (c.toNat + 32) (Or.inl (by omega))] at h2
      have : (' ' : Char).toNat = 32 := rfl
      omega
    · rw [if_neg hc] at h
      exact h
  · intro h
    subst h
    rfl

theorem pyIsSpace_eq_false_of_lower (c x : Char) (h : pyLowerChar c = x)
    (hx : pyIsSpace x = false) : pyIsSpace c = false := by
  cases hsp : pyIsSpace c with
  | false => rfl
  | true =>
    have hcc : pyLowerChar c = c := by
      unfold pyIsSpace at hsp
      simp only [Bool.or_eq_true, beq_iff_eq] at hsp
      rcases hsp with ((((h1 | h1) | h1) | h1) | h1) | h1 <;> subst h1 <;> rfl
    rw [hcc] at h
    subst h
    rw [hsp] at hx
    cases hx

theorem dropWhile_append_all (w l : List Char) (hw : ∀ c ∈ w, pyIsSpace c = true) :
    List.dropWhile pyIsSpace (w ++ l) = List.dropWhile pyIsSpace l := by
  induction w with
  | nil => rfl
  | cons c t ih =>
    have hc : pyIsSpace c = true := hw c (List.mem_cons_self c t)
    simp only [List.cons_append, List.dropWhile_cons, hc, if_true]
    exact ih (fun c2 h2 => hw c2 (List.mem_cons_of_mem c h2))

theorem dropWhile_head_false {l : List Char} {a : Char} {t : List Char}
    (h : List.dropWhile pyIsSpace l = a :: t) : pyIsSpace a = false := by
  induction l with
  | nil => cases h
  | cons c r ih =>
    rw [List.dropWhile_cons] at h
    by_cases hc : pyIsSpace c = true
    · rw [if_pos hc] at h
      exact ih h
    · rw [if_neg hc] at h
      cases h
      simpa using hc

theorem dropWhile_idem (l : List Char) :
    List.dropWhile pyIsSpace (List.dropWhile pyIsSpace l) = List.dropWhile pyIsSpace l := by
  cases h : List.dropWhile pyIsSpace l with
  | nil => rfl
  | cons a t =>
    rw [List.dropWhile_cons, if_neg]
    rw [dropWhile_head_false h]
    simp

theorem rstrip_eq_nil_iff (l : List Char) :
    pyRStripList l = [] ↔ ∀ c ∈ l, pyIsSpace c = true := by
  unfold pyRStripList
  rw [List.reverse_eq_nil_iff, List.dropWhile_eq_nil_iff]
  constructor
  · intro h c hc
    exact h c (List.mem_reverse.mpr hc)
  · intro h c hc
    exact h c (List.mem_reverse.mp hc)

theorem rstrip_append_ws (l w : List Char) (hw : ∀ c ∈ w, pyIsSpace c = true) :
    pyRStripList (l ++ w) = pyRStripList l := by
  unfold pyRStripList
  rw [List.reverse_append, dropWhile_append_all _ _ (fun c h2 => hw c (List.mem_reverse.mp h2))]

theorem rstrip_append_left (x l : List Char) (h : pyRStripList l ≠ []) :
    pyRStripList (x ++ l) = x ++ pyRStripList l := by
  unfold pyRStripList at h ⊢
  rw [List.reverse_append, List.dropWhile_append]
  have hne : (List.dropWhile pyIsSpace l.reverse).isEmpty = false := by
    cases hd : List.dropWhile pyIsSpace l.reverse with
    | nil => rw [hd] at h; simp at h
    | cons a t => rfl
  rw [hne]
  simp

theorem lstrip_of_head_not_space (a : Char) (t : List Char) (h : pyIsSpace a = false) :
    List.dropWhile pyIsSpace (a :: t) = a :: t := by
  rw [List.dropWhile_cons, if_neg]
  rw [h]
  simp

theorem normalize_api_token_strip_form (v : String) :
    normalize_api_token (Option.some v) =
      (if pyStrip v = "" then ""
       else if pyStartsWith (pyLower (pyStrip v)) "token " then
         pyStrip (pySplitWsOnce (pyStrip v)).2
       else pyStrip v) := by
  by_cases hv : v = ""
  · subst hv
    rfl
  · simp [normalize_api_token, hv]

theorem normalize_eq_of_strip_eq (t u : String) (h : pyStrip t = pyStrip u) :
    normalize_api_token (Option.some t) = normalize_api_token (Option.some u) := by
  rw [normalize_api_token_strip_form t, normalize_api_token_strip_form u, h]

theorem strip_pad (w1 s w2 : String) (h1 : w1.toList.all pyIsSpace = true)
    (h2 : w2.toList.all pyIsSpace = true) :
    pyStrip (w1 ++ s ++ w2) = pyStrip s := by
  have hw1 : ∀ c ∈ w1.toList, pyIsSpace c = true := List.all_eq_true.mp h1
  have hw2 : ∀ c ∈ w2.toList, pyIsSpace c = true := List.all_eq_true.mp h2
  have htl : (w1 ++ s ++ w2).toList = w1.toList ++ (s.toList ++ w2.toList) := by
    show (w1 ++ s ++ w2).data = w1.data ++ (s.data ++ w2.data)
    rw [String.data_append, String.data_append, List.append_assoc]
  unfold pyStrip pyLStripList
  rw [htl, dropWhile_append_all _ _ hw1, List.dropWhile_append]
  cases hs : (List.dropWhile pyIsSpace s.toList).isEmpty with
  | true =>
    rw [if_pos rfl]
    have hnil : List.dropWhile pyIsSpace s.toList = [] := by
      cases hd : List.dropWhile pyIsSpace s.toList with
      | nil => rfl
      | cons a t => rw [hd] at hs; cases hs
    rw [hnil]
    have hw2nil : List.dropWhile pyIsSpace w2.toList = [] :=
      List.dropWhile_eq_nil_iff.mpr hw2
    rw [hw2nil]
  | false =>
    rw [if_neg (by simp [hs])]
    rw [rstrip_append_ws _ _ hw2]

theorem strip_label (p s : String) (hp : pyLower p = "token ") (h1 : pyStrip s ≠ "") :
    normalize_api_token (Option.some (p ++ s)) = pyStrip s := by
  have hmap : p.toList.map pyLowerChar = ['t', 'o', 'k', 'e', 'n', ' '] :=
    congrArg String.toList hp
  have hrs_ne : pyRStripList s.toList ≠ [] := by
    intro hcon
    apply h1
    have hall : ∀ c ∈ s.toList, pyIsSpace c = true := (rstrip_eq_nil_iff s.toList).mp hcon
    show (⟨pyRStripList (pyLStripList s.toList)⟩ : String) = ""
    unfold pyLStripList
    rw [List.dropWhile_eq_nil_iff.mpr hall]
    rfl
  cases hlp : p.toList with
  | nil => rw [hlp] at hmap; cases hmap
  | cons c1 t1 =>
  cases t1 with
  | nil => rw [hlp] at hmap; simp at hmap
  | cons c2 t2 =>
  cases t2 with
  | nil => rw [hlp] at hmap; simp at hmap
  | cons c3 t3 =>
  cases t3 with
  | nil => rw [hlp] at hmap; simp at hmap
  | cons c4 t4 =>
  cases t4 with
  | nil => rw [hlp] at hmap; simp at hmap
  | cons c5 t5 =>
  cases t5 with
  | nil => rw [hlp] at hmap; simp at hmap
  | cons c6 t6 =>
  rw [hlp] at hmap
  simp only [List.map_cons, List.cons.injEq] at hmap
  obtain ⟨hm1, hm2, hm3, hm4, hm5, hm6, hm7⟩ := hmap
  have ht6 : t6 = [] := List.map_eq_nil_iff.mp hm7
  subst ht6
  have hs1 : pyIsSpace c1 = false := pyIsSpace_eq_false_of_lower c1 't' hm1 rfl
  have hs2 : pyIsSpace c2 = false := pyIsSpace_eq_false_of_lower c2 'o' hm2 rfl
  have hs3 : pyIsSpace c3 = false := pyIsSpace_eq_false_of_lower c3 'k' hm3 rfl
  have hs4 : pyIsSpace c4 = false := pyIsSpace_eq_false_of_lower c4 'e' hm4 rfl
  have hs5 : pyIsSpace c5 = false := pyIsSpace_eq_false_of_lower c5 'n' hm5 rfl
  have hc6 : c6 = ' ' := (pyLowerChar_eq_space_iff c6).mp hm6
  subst hc6
  -- the stripped concatenation is the label followed by the right-stripped credential
  have htl : (p ++ s).toList = p.toList ++ s.toList := by
    show (p ++ s).data = p.data ++ s.data
    exact String.data_append p s
  have hstript : pyStrip (p ++ s) =
      ⟨c1 :: c2 :: c3 :: c4 :: c5 :: ' ' :: pyRStripList s.toList⟩ := by
    unfold pyStrip pyLStripList
    rw [htl, hlp]
    rw [show (c1 :: c2 :: c3 :: c4 :: c5 :: ' ' :: []) ++ s.toList =
        c1 :: ((c2 :: c3 :: c4 :: c5 :: ' ' :: []) ++ s.toList) from rfl]
    rw [lstrip_of_head_not_space c1 _ hs1]
    rw [show c1 :: ((c2 :: c3 :: c4 :: c5 :: ' ' :: []) ++ s.toList) =
        (c1 :: c2 :: c3 :: c4 :: c5 :: ' ' :: []) ++ s.toList from rfl]
    rw [rstrip_append_left _ _ hrs_ne]
    rfl
  -- the token check succeeds on the stripped value
  have hlower : pyLower (pyStrip (p ++ s)) =
      ⟨'t' :: 'o' :: 'k' :: 'e' :: 'n' :: ' ' ::
        (pyRStripList s.toList).map pyLowerChar⟩ := by
    rw [hstript]
    unfold pyLower
    show (⟨List.map pyLowerChar
        (c1 :: c2 :: c3 :: c4 :: c5 :: ' ' :: pyRStripList s.toList)⟩ : String) = _
    simp only [List.map_cons, hm1, hm2, hm3, hm4, hm5]
    rfl
  have hstarts : pyStartsWith (pyLower (pyStrip (p ++ s))) "token " = true := by
    rw [hlower]
    unfold pyStartsWith
    simp
  -- the split drops the label word and the following whitespace run
  have hsplit : (pySplitWsOnce (pyStrip (p ++ s))).2 =
      ⟨List.dropWhile pyIsSpace (pyRStripList s.toList)⟩ := by
    rw [hstript]
    unfold pySplitWsOnce
    show (⟨((List.dropWhile pyIsSpace
        (c1 :: c2 :: c3 :: c4 :: c5 :: ' ' :: pyRStripList s.toList)).dropWhile
          (fun c => !pyIsSpace c)).dropWhile pyIsSpace⟩ : String) = _
    rw [lstrip_of_head_not_space c1 _ hs1]
    simp only [List.dropWhile_cons, hs1, hs2, hs3, hs4, hs5, Bool.not_false, if_true,
      show pyIsSpace ' ' = true from rfl, Bool.not_true, if_false]
    rfl
  -- assembling: the branch taken returns strip(split[1]) which is strip s
  have hne2 : pyStrip (p ++ s) ≠ "" := by
    rw [hstript]
    intro hcon
    have := congrArg String.toList hcon
    cases this
  rw [normalize_api_token_strip_form (p ++ s), if_neg hne2, if_pos hstarts, hsplit]
  -- strip of the remainder: right-strip was already done, left-strip once suffices
  unfold pyStrip pyLStripList
  congr 1
  show pyRStripList (List.dropWhile pyIsSpace
      (List.dropWhile pyIsSpace (pyRStripList s.toList))) =
    pyRStripList (List.dropWhile pyIsSpace s.toList)
  rw [dropWhile_idem]
  -- goal: rstrip (lstrip (rstrip ls)) = rstrip (lstrip ls)
  have hdecomp : s.toList = s.toList.takeWhile pyIsSpace ++ s.toList.dropWhile pyIsSpace :=
    (List.takeWhile_append_dropWhile pyIsSpace s.toList).symm
  have hw0 : ∀ c ∈ s.toList.takeWhile pyIsSpace, pyIsSpace c = true :=
    fun c hc => List.mem_takeWhile_imp hc
  cases hcore : s.toList.dropWhile pyIsSpace with
  | nil =>
    exfalso
    apply hrs_ne
    apply (rstrip_eq_nil_iff s.toList).mpr
    intro c hc
    have := List.dropWhile_eq_nil_iff.mp hcore
    exact this c hc
  | cons d core2 =>
    have hd : pyIsSpace d = false := dropWhile_head_false hcore
    have hrstripcore_ne : pyRStripList (d :: core2) ≠ [] := by
      intro hcon
      have := (rstrip_eq_nil_iff (d :: core2)).mp hcon d (List.mem_cons_self d core2)
      rw [hd] at this
      cases this
    have hrstrip_head : ∃ tail, pyRStripList (d :: core2) = d :: tail := by
      unfold pyRStripList
      rw [show (d :: core2).reverse = core2.reverse ++ [d] from by simp]
      rw [List.dropWhile_append]
      cases hie : (List.dropWhile pyIsSpace core2.reverse).isEmpty with
      | true =>
        rw [if_pos rfl]
        rw [lstrip_of_head_not_space d [] hd]
        exact ⟨[], rfl⟩
      | false =>
        rw [if_neg (by simp [hie])]
        rw [List.reverse_append]
        exact ⟨(List.dropWhile pyIsSpace core2.reverse).reverse, rfl⟩
    obtain ⟨tail, htail⟩ := hrstrip_head
    conv_lhs => rw [hdecomp, hcore]
    rw [rstrip_append_left _ _ hrstripcore_ne, htail, dropWhile_append_all _ _ hw0,
      lstrip_of_head_not_space d tail hd, ← htail]
    -- remaining: rstrip (rstrip (d :: core2)) = rstrip (d :: core2)
    unfold pyRStripList
    rw [List.reverse_reverse, dropWhile_idem]

/-- C8 counterexample: the label is stripped at most once, so a credential
that itself begins with the (case-insensitive) label does not normalize to
the same bare string with and without a "Token " label in front of it. -/
theorem normalize_api_token_strips_label_once :
    normalize_api_token (Option.some ("Token " ++ "token x")) = "token x"
    ∧ normalize_api_token (Option.some "token x") = "x"
    ∧ ("token x" : String) ≠ "x" :=
  ⟨by decide, by decide, by decide⟩

/-- C8 (amended): for every credential that is non-empty after stripping and
does not itself begin with the case-insensitive label "token ", the input
with or without a single case-insensitive "Token " label and with or without
surrounding whitespace normalizes to the same bare credential (its stripped
form); and `None`, empty, and whitespace-only inputs normalize to the empty
string. -/
theorem normalize_api_token_spec (s w1 w2 p : String)
    (h1 : pyStrip s ≠ "")
    (h2 : pyStartsWith (pyLower (pyStrip s)) "token " = false)
    (hw1 : w1.toList.all pyIsSpace = true)
    (hw2 : w2.toList.all pyIsSpace = true)
    (hp : pyLower p = "token ") :
    normalize_api_token (Option.some s) = pyStrip s
    ∧ normalize_api_token (Option.some (w1 ++ s ++ w2)) = pyStrip s
    ∧ normalize_api_token (Option.some (w1 ++ (p ++ s) ++ w2)) = pyStrip s
    ∧ normalize_api_token Option.none = ""
    ∧ normalize_api_token (Option.some w1) = "" := by
  have hbare : normalize_api_token (Option.some s) = pyStrip s := by
    rw [normalize_api_token_strip_form s, if_neg h1, if_neg (by simp [h2])]
  have hw1strip : pyStrip w1 = "" := by
    unfold pyStrip pyLStripList
    rw [List.dropWhile_eq_nil_iff.mpr (List.all_eq_true.mp hw1)]
    rfl
  refine ⟨hbare, ?_, ?_, rfl, ?_⟩
  · rw [normalize_eq_of_strip_eq (w1 ++ s ++ w2) s (strip_pad w1 s w2 hw1 hw2)]
    exact hbare
  · rw [normalize_eq_of_strip_eq (w1 ++ (p ++ s) ++ w2) (p ++ s)
      (strip_pad w1 (p ++ s) w2 hw1 hw2)]
    exact strip_label p s hp h1
  · rw [normalize_api_token_strip_form w1, if_pos hw1strip]

/-- C8 witness: the padded, labelled and bare forms of "abc" all normalize
to "abc", and a whitespace-only input normalizes to empty. -/
theorem normalize_api_token_spec_witness :
    normalize_api_token (Option.some " abc  ") = "abc"
    ∧ normalize_api_token (Option.some (" " ++ ("tOKen " ++ " abc  ") ++ "  ")) = "abc"
    ∧ normalize_api_token (Option.some " ") = "" :=
  ⟨(normalize_api_token_spec " abc  " " " "  " "tOKen " (by decide) (by decide)
      (by decide) (by decide) (by decide)).1.trans (by decide),
   ((normalize_api_token_spec " abc  " " " "  " "tOKen " (by decide) (by decide)
      (by decide) (by decide) (by decide)).2.2.1).trans (by decide),
   (normalize_api_token_spec " abc  " " " "  " "tOKen " (by decide) (by decide)
      (by decide) (by decide) (by decide)).2.2.2.2⟩

/-- C1 (amended), behaviour of `_update_checkpoint`: the loaded (or fresh)
checkpoint row gets its cursor and `last_case_id` replaced by the case's
values exactly when the case's normalized cursor is at least (`>=`, not
strictly newer than) the stored one or no cursor is stored, and
`last_run_id` is always stamped. -/
theorem update_checkpoint_spec (cfg : Config) (db : DB) (key : String) (c : CaseT)
    (run_id : String) :
    lookupA (update_checkpoint cfg db key c run_id).checkpoints key =
      Option.some
        { (lookupA db.checkpoints key).getD
            ⟨key, cfg.source, Option.none, Option.none, Option.none⟩ with
          last_case_last_checked :=
            (if cursorAdvances ((lookupA db.checkpoints key).getD
                ⟨key, cfg.source, Option.none, Option.none, Option.none⟩).last_case_last_checked
                (normalize_datetime c.last_checked)
             then normalize_datetime c.last_checked
             else ((lookupA db.checkpoints key).getD
                ⟨key, cfg.source, Option.none, Option.none, Option.none⟩).last_case_last_checked)
          last_case_id :=
            (if cursorAdvances ((lookupA db.checkpoints key).getD
                ⟨key, cfg.source, Option.none, Option.none, Option.none⟩).last_case_last_checked
                (normalize_datetime c.last_checked)
             then Option.some c.id
             else ((lookupA db.checkpoints key).getD
                ⟨key, cfg.source, Option.none, Option.none, Option.none⟩).last_case_id)
          last_run_id := Option.some run_id } :=
  update_checkpoint_lookup cfg db key c run_id
